import Mathlib

/-!
Verification of the heartbeat-analysis core (`src/analysis.py`).

The pipeline is embedded shallowly:

* timestamps are rational numbers of seconds (pandas datetimes differ only
  by formatting);
* float arithmetic of the source is modelled over `ℚ`, with `round`
  (Python / numpy half-to-even) modelled by `roundHE` and `np.floor` by
  `Rat.floor`;
* `NaN` cells are `Option.none`;
* a raised Python exception is `Except.error`;
* `pandas.sort_values` is called by the source with its default
  `kind='quicksort'`, which pandas documents as not stable, so the source
  fixes no order between rows with equal timestamps; the insertion sort
  `sortOn` is one concrete resolution of that unspecified tie order, and
  every theorem stated over sorted output draws only conclusions that hold
  for an arbitrary timestamp-sorted permutation (membership, counts,
  sortedness, or an existential over such permutations).
-/

attribute [local semireducible] Rat.add Rat.sub Rat.mul Rat.inv

/-- Half-to-even rounding of a rational to an integer, the rounding used by
Python's `round` and numpy's `np.round`. -/
def roundHE (q : ℚ) : ℤ :=
  let f : ℤ := q.floor
  let r : ℚ := q - (f : ℚ)
  if r < 1/2 then f
  else if 1/2 < r then f + 1
  else if f % 2 = 0 then f else f + 1

/-- `round(q, 3)` of the source: half-to-even rounding at the third decimal. -/
def round3 (q : ℚ) : ℚ := ((roundHE (q * 1000) : ℚ)) / 1000

/-- Dictionary lookup (`dict[key]` returns `none` where Python raises `KeyError`). -/
def lookupQ (d : List (String × ℚ)) (k : String) : Option ℚ :=
  (d.find? (fun p => p.1 = k)).map (fun p => p.2)

/-- Python's `sub in s` on strings: substring containment. -/
def strIn (sub s : String) : Bool := decide (sub.toList <:+: s.toList)

/-- The analysis configuration (`DEFAULT_CONFIG` keys of `Analysis.__init__`). -/
structure Config where
  hrParam : List (String × ℚ)
  startCode : List String
  endCode : List String
  measCode : List String
  totalBeatsCode : String
  cap : List ℚ
  sampleRate : ℚ
  timeDelta : ℚ
deriving DecidableEq, Repr

/-- The shipped `DEFAULT_CONFIG` of `Analysis.__init__`. -/
def defaultConfig : Config :=
  { hrParam := [("s", 1), ("m", 60), ("h", 3600), ("SEC", 1), ("MIN", 60)]
    startCode := ["1.7.0.0", "170"]
    endCode := ["1.7.1.0", "171"]
    measCode := ["1.7.0.1", "200"]
    totalBeatsCode := "1.7.0.2"
    cap := [5, 6]
    sampleRate := 10
    timeDelta := 20 }

/-- One raw log event, a row of the `raw_data` table
(`time_column, log_version, log_code, log_data1, log_data2, log_data3,
device_type, device_id`). -/
structure RawRow where
  time : ℚ
  version : String
  code : String
  data1 : ℚ
  data2 : String
  data3 : ℚ
  deviceType : String
  deviceId : String
deriving DecidableEq, Repr

/-- One retained row of `filter_data`'s result. -/
structure OutRow where
  time : ℚ
  version : String
  code : String
  deviceType : String
  deviceId : String
  diff : Option ℚ
  beatsSec : Option ℚ
  beatsMin : Option ℤ
  beatsHr : Option ℤ
  ctr : Option ℚ
  testId : ℕ
  ongoing : Bool
  totalBeats : Option ℤ
deriving DecidableEq, Repr

/-- State of the positional scan of `filter_data`: the `valid_flag` and the
`test_count` accumulator. -/
structure ScanSt where
  flag : Bool
  count : ℕ
deriving DecidableEq, Repr

/-- What the scan of `filter_data` does with one row: keep it (with derived
rate, device counter and test id), mark it `remove`, raise `KeyError` on an
unknown unit (`errUnit`), or append nothing to the per-row lists, which makes
the later column assignment raise a length mismatch (`errUnknown`). -/
inductive Entry where
  | remove
  | keep (beatsSec : Option ℚ) (ctr : Option ℚ) (testId : ℕ)
  | errUnit
  | errUnknown
deriving DecidableEq, Repr

/-- Rate derivation for a measurement row that reached the non-duplicate
branch: `hr = log_data1 / hr_param_dict[log_data2]`, clamped per device
class (`filter_data` lines 105-118).  `none` is the `KeyError` of an
unrecognized unit. -/
def deriveRate (cfg : Config) (code : String) (d1 : ℚ) (d2 : String) : Option ℚ :=
  match lookupQ cfg.hrParam d2 with
  | none => none
  | some u =>
    let hr := d1 / u
    if code = cfg.measCode.getD 0 "" ∧ hr > cfg.cap.getD 0 0 then
      some (cfg.cap.getD 0 0)
    else if code = cfg.measCode.getD 1 "" ∧ hr > cfg.cap.getD 1 0 then
      some (cfg.cap.getD 0 0)
    else
      some (round3 hr)

/-- State update of the scan: `valid_flag` turns on at a start code, off at an
end code, and `test_count` increments at every start code.  The branch order
mirrors the `elif` chain of `filter_data`. -/
def stepSt (cfg : Config) (st : ScanSt) (code : String) : ScanSt :=
  if code ∈ cfg.startCode then ⟨true, st.count + 1⟩
  else if code ∈ cfg.measCode ∧ st.flag then st
  else if strIn code cfg.totalBeatsCode ∧ st.flag then st
  else if code ∈ cfg.endCode then ⟨false, st.count⟩
  else st

/-- Entry produced by the scan for one row, given the state before the row and
the raw predecessor row (used by the zero-time-delta duplicate rule). -/
def stepEntry (cfg : Config) (st : ScanSt) (prev : Option RawRow) (r : RawRow) : Entry :=
  if r.code ∈ cfg.startCode then .keep none none (st.count + 1)
  else if r.code ∈ cfg.measCode ∧ st.flag then
    if (match prev with
        | some p => decide (r.time - p.time = 0 ∧ p.code ∉ cfg.startCode)
        | none => false) then .remove
    else
      match deriveRate cfg r.code r.data1 r.data2 with
      | none => .errUnit
      | some hr => .keep (some hr) none st.count
  else if strIn r.code cfg.totalBeatsCode ∧ st.flag then .keep none (some r.data1) st.count
  else if r.code ∈ cfg.endCode then .keep none none st.count
  else if ¬ st.flag then .remove
  else .errUnknown

/-- The scan of `filter_data` (its `for idx, code in enumerate(...)` loop),
producing one entry per input row. -/
def scanFrom (cfg : Config) : ScanSt → Option RawRow → List RawRow → List Entry
  | _, _, [] => []
  | st, prev, r :: rs =>
    stepEntry cfg st prev r :: scanFrom cfg (stepSt cfg st r.code) (some r) rs

/-- Entries of the scan started from `valid_flag = False` and
`test_count = lastId` (the value `check_last_test_id` read from storage). -/
def scanEntries (cfg : Config) (lastId : ℕ) (rows : List RawRow) : List Entry :=
  scanFrom cfg ⟨false, lastId⟩ none rows

/-- Scan state reached just before row `i`. -/
def scanStateAt (cfg : Config) (lastId : ℕ) (rows : List RawRow) (i : ℕ) : ScanSt :=
  (rows.take i).foldl (fun st r => stepSt cfg st r.code) ⟨false, lastId⟩

/-- The backward time deltas `df['time_diff[sec]']` computed on the raw rows
(`NaN` at the first row). -/
def backDiffs (rows : List RawRow) : List (Option ℚ) :=
  match rows with
  | [] => []
  | _ :: _ => none :: (rows.zip rows.tail).map (fun p => some (p.2.time - p.1.time))

/-- Build a retained row from a kept scan entry;  `beats_min`/`beats_hr` are
the `convert_units` columns `np.round(beats_sec * valid_units['m'])` and
`np.round(beats_sec * valid_units['h'])`. -/
def mkOutRow (m60 h3600 : ℚ) (r : RawRow) (diff : Option ℚ)
    (bs : Option ℚ) (ctr : Option ℚ) (tid : ℕ) : OutRow :=
  { time := r.time, version := r.version, code := r.code
    deviceType := r.deviceType, deviceId := r.deviceId
    diff := diff, beatsSec := bs
    beatsMin := bs.map (fun q => roundHE (q * m60))
    beatsHr := bs.map (fun q => roundHE (q * h3600))
    ctr := ctr, testId := tid, ongoing := false, totalBeats := none }

/-- `check_ongoing_test`: index of the last end-code row decides where the
`ongoing` flag starts.  The source tests the index with Python truthiness
(`if last_index:`), so an end code at index 0 behaves like no end code. -/
def check_ongoing_test (cfg : Config) (df : List OutRow) : Option ℕ :=
  let endIdx := ((df.enum.filter (fun p => p.2.code ∈ cfg.endCode)).map (fun p => p.1))
  match endIdx.getLast? with
  | none => some 0
  | some li =>
    if li ≠ 0 then (if li = df.length - 1 then none else some (li + 1))
    else some 0

/-- `filtered_df.loc[ongoing_loc:, 'ongoing'] = True`. -/
def applyOngoing (cfg : Config) (df : List OutRow) : List OutRow :=
  match check_ongoing_test cfg df with
  | none => df
  | some l => df.enum.map (fun p => if l ≤ p.1 then { p.2 with ongoing := true } else p.2)

/-- Stable insertion into a list sorted by `key`. -/
def insOn {α : Type} (key : α → ℚ) (a : α) : List α → List α
  | [] => [a]
  | b :: l => if key a ≤ key b then a :: b :: l else b :: insOn key a l

/-- Sort by `key`, modelling `sort_values`.  The source's default
`kind='quicksort'` is not stable, so it fixes no order between equal keys;
this insertion sort is one concrete resolution of that unspecified choice,
and theorems about sorted output only state tie-order-independent facts. -/
def sortOn {α : Type} (key : α → ℚ) : List α → List α
  | [] => []
  | a :: l => insOn key a (sortOn key l)

/-- The synthetic zero-rate boundary rows built by `handle_data_gaps`: one per
row whose recorded `time_diff[sec]` exceeds `delta` and whose code is not a
start code, placed at `previous_timestamp + delta`.  For `idx = 0` the
source reads `df['time_column'].iloc[idx - 1]`, i.e. the LAST row, by
Python's negative indexing. -/
def gapRowsOf (df : List OutRow) (start_code : List String) (delta : ℚ) : List OutRow :=
  (List.range df.length).filterMap (fun i =>
    match df.get? i with
    | none => none
    | some r =>
      match r.diff with
      | none => none
      | some d =>
        if d > delta ∧ r.code ∉ start_code then
          let prevTime :=
            match (if i = 0 then df.getLast? else df.get? (i - 1)) with
            | some p => p.time
            | none => 0
          some { time := prevTime + delta, version := r.version, code := "added_point"
                 deviceType := r.deviceType, deviceId := r.deviceId
                 diff := some delta, beatsSec := some 0, beatsMin := some 0
                 beatsHr := some 0, ctr := none, testId := r.testId
                 ongoing := r.ongoing, totalBeats := none }
        else none)

/-- `recalculate_time_diff`: forward deltas, with `0` appended for the last
row. -/
def recalcDiffs : List OutRow → List OutRow
  | [] => []
  | [r] => [{ r with diff := some 0 }]
  | r :: nxt :: rest => { r with diff := some (nxt.time - r.time) } :: recalcDiffs (nxt :: rest)

/-- `handle_data_gaps`: insert the boundary rows, sort by timestamp, and
recompute the time deltas. -/
def handle_data_gaps (df : List OutRow) (start_code : List String) (delta : ℚ) : List OutRow :=
  recalcDiffs (sortOn (fun r => r.time) (df ++ gapRowsOf df start_code delta))

/-- `total_beats = np.floor(time_diff * beats_sec)` over rows where both are
known (`filter_data` lines 164-166). -/
def setTotalBeats (l : List OutRow) : List OutRow :=
  l.map (fun r =>
    { r with totalBeats :=
        match r.diff, r.beatsSec with
        | some d, some b => some ((d * b).floor)
        | _, _ => none })

/-- `filter_data`: the full cleaning pipeline of the analysis.  `lastId` is
the test counter resumed from storage by `check_last_test_id` (0 when no
previous run exists).  `Except.error` models the Python exceptions: a
`KeyError` from an unknown unit key, the length mismatch raised by the column
assignment when some row matches no branch of the scan, and the `KeyError`
raised by `convert_units` when `'m'` or `'h'` is missing from the unit
table. -/
def filter_data (cfg : Config) (lastId : ℕ) (rows : List RawRow) :
    Except String (List OutRow) :=
  if rows.isEmpty then .ok [] else
  let entries := scanEntries cfg lastId rows
  if entries.any (fun e => e = .errUnit) then .error "KeyError: hr_param_dict" else
  if entries.any (fun e => e = .errUnknown) then .error "ValueError: length mismatch" else
  match lookupQ cfg.hrParam "m", lookupQ cfg.hrParam "h" with
  | some m60, some h3600 =>
    let kept := ((rows.zip (backDiffs rows)).zip entries).filterMap (fun t =>
      match t.2 with
      | .keep bs ctr tid => some (mkOutRow m60 h3600 t.1.1 t.1.2 bs ctr tid)
      | _ => none)
    .ok (setTotalBeats (handle_data_gaps (applyOngoing cfg kept) cfg.startCode cfg.timeDelta))
  | _, _ => .error "KeyError: convert_units"

/-- One row of the rate series handed to `resample_df` by
`calc_heartbeat_rate_over_time` (its column selection). -/
structure RateRow where
  time : ℚ
  version : String
  code : String
  beatsSec : Option ℚ
  beatsMin : Option ℤ
  beatsHr : Option ℤ
  testId : ℕ
  deviceType : String
  deviceId : String
  diff : Option ℚ
  ongoing : Bool
deriving DecidableEq, Repr

/-- One synthetic resample row: `time[idx] + (i+1) * sample_rate`, carrying
row `idx`'s rates, session and device identity. -/
def mkResRow (r : RateRow) (sample_rate : ℚ) (i : ℕ) : RateRow :=
  { time := r.time + ((i : ℚ) + 1) * sample_rate, version := r.version
    code := "added_point", beatsSec := r.beatsSec, beatsMin := r.beatsMin
    beatsHr := r.beatsHr, testId := r.testId, deviceType := r.deviceType
    deviceId := r.deviceId, diff := none, ongoing := r.ongoing }

/-- The batch of synthetic rows `resample_df` builds for index `idx`: when the
forward delta at `idx` exceeds `sample_rate` and the row's code is neither a
start nor an end code, `int(delta // sample_rate) - 1` rows at
`time[idx] + (i+1) * sample_rate` carrying row `idx`'s rates. -/
def resBatch (df : List RateRow) (sample_rate : ℚ) (codes : List String × List String)
    (idx : ℕ) : List RateRow :=
  match df.get? idx with
  | none => []
  | some r =>
    match r.diff with
    | none => []
    | some d =>
      if d > sample_rate ∧ r.code ∉ codes.1 ∧ r.code ∉ codes.2 then
        (List.range ((d / sample_rate).floor - 1).toNat).map (mkResRow r sample_rate)
      else []

/-- All synthetic rows of `resample_df` (the `gap_rows` list). -/
def resample_gap_rows (df : List RateRow) (sample_rate : ℚ)
    (codes : List String × List String) : List RateRow :=
  ((List.range df.length).map (resBatch df sample_rate codes)).flatten

/-- `resample_df`: append the synthetic rows, sort by timestamp and drop the
`time_diff[sec]` column (modelled by blanking the `diff` field). -/
def resample_df (df : List RateRow) (sample_rate : ℚ)
    (codes : List String × List String) : List RateRow :=
  (sortOn (fun r => r.time) (df ++ resample_gap_rows df sample_rate codes)).map
    (fun r => { r with diff := none })

/-- `test_df['time_column'].dt.date` and `.dt.hour` group key, collapsed to a
single integer: the hour index `⌊t / 3600⌋` (equal dates and hours iff equal
hour indices, and the pandas ascending (date, hour) key order is the
ascending hour-index order). -/
def hourIdx (t : ℚ) : ℤ := (t / 3600).floor

/-- Minute-of-hour of a timestamp (`dt.minute`). -/
def minuteOf (t : ℚ) : ℤ := (t / 60).floor - 60 * (t / 3600).floor

/-- `Series.unique()`: first-appearance order deduplication. -/
def uniqueOrder {α : Type} [DecidableEq α] (l : List α) : List α :=
  l.foldl (fun acc x => if x ∈ acc then acc else acc ++ [x]) []

/-- `Series.unique().item()`: the single common value, or the `ValueError`
pandas raises when the bucket is not single-valued. -/
def uniqueItem (l : List String) : Except String String :=
  match l with
  | [] => .error "item() on empty column"
  | x :: xs => if xs.all (fun y => decide (y = x)) then .ok x else .error "item(): not unique"

/-- Minimum of a rational list (buckets are nonempty; `0` pads the vacuous case). -/
def minQ : List ℚ → ℚ
  | [] => 0
  | x :: xs => xs.foldl min x

/-- Maximum of a rational list. -/
def maxQ : List ℚ → ℚ
  | [] => 0
  | x :: xs => xs.foldl max x

/-- Minimum of an integer list. -/
def minZ : List ℤ → ℤ
  | [] => 0
  | x :: xs => xs.foldl min x

/-- Maximum of an integer list. -/
def maxZ : List ℤ → ℤ
  | [] => 0
  | x :: xs => xs.foldl max x

/-- One output row of `calc_total_heartbeat_over_time`. -/
structure AggRow where
  date : ℤ
  testId : ℕ
  hour : ℤ
  totalBeats : ℚ
  totalTime : ℚ
  startTime : ℚ
  endTime : ℚ
  deviceType : String
  deviceId : String
  version : String
  isHourComplete : Bool
  ongoing : Bool
deriving DecidableEq, Repr

/-- `hour_group['total_beats'].sum()`: skip-NaN sum, raising `KeyError` when
the `total_beats` column was dropped (no row of the whole run has a value). -/
def sumTB (hasTB : Bool) (g : List (ℕ × OutRow)) : Except String ℚ :=
  if hasTB then
    .ok ((g.map (fun p => match p.2.totalBeats with
                          | some z => (z : ℚ)
                          | none => 0)).sum)
  else .error "KeyError: total_beats"

/-- `hour_group['total_beats_device'].last_valid_index()`: the global index of
the bucket's last counter-bearing row. -/
def lastCtrIdx (g : List (ℕ × OutRow)) : Option ℕ :=
  ((g.filter (fun p => p.2.ctr.isSome)).getLast?).map (fun p => p.1)

/-- Counter value stored at global index `l` of the bucket. -/
def ctrAt (g : List (ℕ × OutRow)) (l : ℕ) : ℚ :=
  match (g.find? (fun p => decide (p.1 = l))).bind (fun p => p.2.ctr) with
  | some c => c
  | none => 0

/-- Global index of the bucket's last row (`hour_group.index[-1]`). -/
def lastIdxOf (g : List (ℕ × OutRow)) : ℕ :=
  ((g.getLast?).map (fun p => p.1)).getD 0

/-- The three-way counter reconciliation of one hour bucket
(`calc_total_heartbeat_over_time` lines 198-213), returning the bucket's
`total_beats` and the updated `last_hour_device_total` accumulator.  The
source tests `if not last_value_index:` with Python truthiness, so a last
counter row at global index 0 falls into the no-counter branch, and compares
`last_value_index != hour_group.index[-1] - 1` on global (not in-bucket)
indices. -/
def bucketTB (hasCtr hasTB : Bool) (g : List (ℕ × OutRow)) (base : ℚ) :
    Except String (ℚ × ℚ) :=
  if hasCtr then
    match lastCtrIdx g with
    | none => do pure ((← sumTB hasTB g), base)
    | some l =>
      if l = 0 then do pure ((← sumTB hasTB g), base)
      else
        let c := ctrAt g l
        if (l : ℤ) ≠ (lastIdxOf g : ℤ) - 1 then do
          pure ((c - base + (← sumTB hasTB (g.filter (fun p => l ≤ p.1)))), c)
        else pure (c - base, c)
  else do pure ((← sumTB hasTB g), base)

/-- Aggregation of one test's rows (`(gidx, row)` pairs), folding the
`last_hour_device_total` accumulator over the hour buckets in ascending
(date, hour) order. -/
def testAgg (hasCtr hasTB : Bool) (test : ℕ) (trows : List (ℕ × OutRow)) :
    Except String (List AggRow) := do
  let keys := sortOn (fun k : ℤ => (k : ℚ)) (uniqueOrder (trows.map (fun p => hourIdx p.2.time)))
  let r ← keys.foldlM (fun (acc : List AggRow × ℚ) k => do
      let g := trows.filter (fun p => decide (hourIdx p.2.time = k))
      let (tb, base2) ← bucketTB hasCtr hasTB g acc.2
      let times := g.map (fun p => p.2.time)
      let ver ← uniqueItem (g.map (fun p => p.2.version))
      let dev ← uniqueItem (g.map (fun p => p.2.deviceType))
      let did ← uniqueItem (g.map (fun p => p.2.deviceId))
      let mins := g.map (fun p => minuteOf p.2.time)
      pure (acc.1 ++
        [{ date := Int.fdiv k 24, testId := test, hour := Int.emod k 24
           totalBeats := tb, totalTime := maxQ times - minQ times
           startTime := minQ times, endTime := maxQ times
           deviceType := dev, deviceId := did, version := ver
           isHourComplete := decide (minZ mins = 0 ∧ maxZ mins = 59)
           ongoing := g.any (fun p => p.2.ongoing) }], base2))
    (([], 0) : List AggRow × ℚ)
  pure r.1

/-- `calc_total_heartbeat_over_time`: group the retained rows by test id, then
by (date, hour), and reconcile device counters against per-sample totals.
The column-presence tests `'total_beats_device' in hour_group.columns` (and
the implicit presence of `total_beats`) reflect `filter_data`'s dropping of
all-NaN columns, so they are global properties of the run. -/
def calc_total_heartbeat_over_time (rows : List OutRow) : Except String (List AggRow) := do
  let idxRows := rows.enum
  let hasCtr := rows.any (fun r => r.ctr.isSome)
  let hasTB := rows.any (fun r => r.totalBeats.isSome)
  let tests := uniqueOrder (rows.map (fun r => r.testId))
  let out ← tests.foldlM (fun acc test => do
      let a ← testAgg hasCtr hasTB test (idxRows.filter (fun p => decide (p.2.testId = test)))
      pure (acc ++ a)) ([] : List AggRow)
  pure out

/-- The totals pipeline: `filter_data` followed by
`calc_total_heartbeat_over_time`. -/
def runTotals (cfg : Config) (lastId : ℕ) (rows : List RawRow) :
    Except String (List AggRow) :=
  filter_data cfg lastId rows >>= calc_total_heartbeat_over_time

/-- View of `Except` as a sum, for deciding equalities of pipeline results. -/
def exceptToSum {e a : Type} : Except e a → e ⊕ a
  | .error x => .inl x
  | .ok x => .inr x

instance {e a : Type} [DecidableEq e] [DecidableEq a] : DecidableEq (Except e a) := fun x y =>
  decidable_of_iff (exceptToSum x = exceptToSum y)
    (by cases x <;> cases y <;> simp [exceptToSum])

/-- Helper: a raw event of the test device `('hset', '001')`, firmware `v1`. -/
def mkEvent (c : String) (t : ℚ) (d1 : ℚ) (d2 : String) : RawRow :=
  { time := t, version := "v1", code := c, data1 := d1, data2 := d2, data3 := 0
    deviceType := "hset", deviceId := "001" }

/-- Scenario A configuration: the default codes and unit table with cap 20. -/
def cfgScenarioA : Config := { defaultConfig with cap := [20, 20] }

/-- Scenario A events: start at 00:00:00, two measurements (10 and 12
beats/sec) at 00:00:05 and 00:00:10, end at 00:00:15. -/
def rowsScenarioA : List RawRow :=
  [mkEvent "170" 0 0 "", mkEvent "1.7.0.1" 5 10 "s",
   mkEvent "1.7.0.1" 10 12 "s", mkEvent "171" 15 0 ""]

/-- Configuration for the interleaved-session input: default codes, gap
threshold large enough that no synthetic rows are inserted. -/
def cfgInterleaved : Config := { defaultConfig with timeDelta := 10000 }

/-- Two sessions whose time ranges overlap (the second session's events carry
earlier timestamps than the tail of the first, as happens when the raw rows
are not globally time-ordered).  Session 1: start 10:00:00, device counter
100 at 10:00:10, measurement at 10:30:00, end at 11:00:05.  Session 2:
start 10:00:20, measurement at 10:00:25, end at 10:00:28. -/
def rowsInterleaved : List RawRow :=
  [mkEvent "170" 36000 0 "", mkEvent "1.7.0.2" 36010 100 "", mkEvent "1.7.0.1" 37800 2 "s",
   mkEvent "171" 39605 0 "", mkEvent "170" 36020 0 "", mkEvent "1.7.0.1" 36025 1 "s",
   mkEvent "171" 36028 0 ""]

/-- A run whose retained output begins with an end code: the previous
session's closing event arrives first, then a new session starts. -/
def rowsEndFirst : List RawRow :=
  [mkEvent "171" 0 0 "", mkEvent "170" 5 0 "", mkEvent "1.7.0.1" 10 3 "s"]

/-- A removed row (idle measurement at 00:01:30) sits between two retained
rows: the retained end code at 00:01:40 is 95 s after the preceding retained
row (the end code at 00:00:05), far beyond the 20 s threshold. -/
def rowsStaleDiff : List RawRow :=
  [mkEvent "170" 0 0 "", mkEvent "171" 5 0 "", mkEvent "1.7.0.1" 90 1 "s",
   mkEvent "171" 100 0 ""]

/-- An in-session measurement with an unknown unit key `"x"` that is a
zero-time-delta duplicate of the preceding measurement. -/
def rowsDupUnknownUnit : List RawRow :=
  [mkEvent "170" 0 0 "", mkEvent "1.7.0.1" 5 10 "s", mkEvent "1.7.0.1" 5 7 "x",
   mkEvent "171" 9 0 ""]

/-- A session with a single measurement carrying a negative raw value. -/
def rowsNegValue : List RawRow :=
  [mkEvent "170" 0 0 "", mkEvent "1.7.0.1" 5 (-1) "s", mkEvent "171" 10 0 ""]

/-- The raw predecessor row seen by the scan at index `i`. -/
def prevAt (prev : Option RawRow) (rows : List RawRow) : ℕ → Option RawRow
  | 0 => prev
  | Nat.succ j => rows.get? j

/-- Row `i` is discarded by the zero-time-delta duplicate rule: it has a raw
predecessor with the same timestamp whose code is not a start code. -/
def isDupAt (cfg : Config) (rows : List RawRow) : ℕ → Prop
  | 0 => False
  | Nat.succ j =>
    match rows.get? j, rows.get? (j + 1) with
    | some p, some r => r.time - p.time = 0 ∧ p.code ∉ cfg.startCode
    | _, _ => False

/-- Row `i` is an in-session measurement event that reaches the unit lookup
(it is not discarded as a zero-time-delta duplicate) and whose unit key is
not in the configured unit table. -/
def badUnitAt (cfg : Config) (lastId : ℕ) (rows : List RawRow) (i : ℕ) : Prop :=
  ∃ r, rows.get? i = some r ∧
    (scanStateAt cfg lastId rows i).flag = true ∧
    r.code ∈ cfg.measCode ∧ r.code ∉ cfg.startCode ∧
    ¬ isDupAt cfg rows i ∧
    lookupQ cfg.hrParam r.data2 = none

/-- A concrete gap-filler input: a start row at `t = 0` followed by a
measurement row with a recorded 30 s delta, threshold 20 s. -/
def dfGapW : List OutRow :=
  [{ time := 0, version := "v1", code := "170", deviceType := "hset", deviceId := "001"
     diff := none, beatsSec := none, beatsMin := none, beatsHr := none, ctr := none
     testId := 1, ongoing := false, totalBeats := none },
   { time := 30, version := "v1", code := "1.7.0.1", deviceType := "hset", deviceId := "001"
     diff := some 30, beatsSec := some 2, beatsMin := some 120, beatsHr := some 7200
     ctr := none, testId := 1, ongoing := false, totalBeats := none }]

/-- The `time_diff[sec]` column of the rate series holds forward deltas
(enforced by `recalculate_time_diff` upstream): each row's recorded delta is
the next row's timestamp minus its own. -/
def fwdDiffsOK : List RateRow → Prop
  | [] => True
  | [_] => True
  | a :: b :: rest => a.diff = some (b.time - a.time) ∧ fwdDiffsOK (b :: rest)

/-- A synthetic row lying strictly inside the interval `(a.time, b.time)`. -/
def inGapPred (a b : RateRow) : RateRow → Bool :=
  fun o => decide (o.code = "added_point" ∧ a.time < o.time ∧ o.time < b.time)

/-- A concrete rate series for the resampler: two measurement rows 35 s
apart, sampling interval 10 s. -/
def rowResA : RateRow :=
  { time := 0, version := "v1", code := "1.7.0.1", beatsSec := some 2
    beatsMin := some 120, beatsHr := some 7200, testId := 1
    deviceType := "hset", deviceId := "001", diff := some 35, ongoing := false }

/-- The later endpoint of the concrete resampler interval. -/
def rowResB : RateRow :=
  { time := 35, version := "v1", code := "1.7.0.1", beatsSec := some 3
    beatsMin := some 180, beatsHr := some 10800, testId := 1
    deviceType := "hset", deviceId := "001", diff := some 0, ongoing := false }

/-- A start row retained at timestamp 5, for the tie-order counterexample. -/
def rowTieA : RateRow :=
  { time := 5, version := "v1", code := "1.7.0.0", beatsSec := none
    beatsMin := none, beatsHr := none, testId := 1
    deviceType := "hset", deviceId := "001", diff := none, ongoing := false }

/-- A measurement row retained at the same timestamp 5 (a zero-delta sample
whose raw predecessor is a start code is kept, so the pipeline does produce
equal-timestamp pairs like this one). -/
def rowTieB : RateRow :=
  { time := 5, version := "v1", code := "1.7.0.1", beatsSec := some 2
    beatsMin := some 120, beatsHr := some 7200, testId := 1
    deviceType := "hset", deviceId := "001", diff := none, ongoing := false }

/-- A rate series with two equal-timestamp rows and no resample gaps. -/
def dfTieW : List RateRow := [rowTieA, rowTieB]

/-- The per-row invariant of C9: a stored rate is within `[0, cap]` (the
second class's cap in general, the first class's cap on first-class rows),
and the minute and hour columns are the rounded conversions of the
second-rate column. -/
def rateBounds (cfg : Config) (o : OutRow) : Prop :=
  (∀ q, o.beatsSec = some q →
     0 ≤ q ∧ q ≤ cfg.cap.getD 1 0 ∧
     (o.code = cfg.measCode.getD 0 "" → q ≤ cfg.cap.getD 0 0)) ∧
  o.beatsMin = o.beatsSec.map (fun q => roundHE (q * 60)) ∧
  o.beatsHr = o.beatsSec.map (fun q => roundHE (q * 3600))

/-- The rows used by the C9 witness run. -/
def rowsBoundsW : List RawRow :=
  [mkEvent "170" 0 0 "", mkEvent "1.7.0.1" 5 3 "s", mkEvent "171" 10 0 ""]

/-- The measurement row retained from the C9 witness run. -/
def rowBoundsW : OutRow :=
  { time := 5, version := "v1", code := "1.7.0.1", deviceType := "hset", deviceId := "001"
    diff := some 5, beatsSec := some 3, beatsMin := some 180, beatsHr := some 10800
    ctr := none, testId := 1, ongoing := false, totalBeats := some 15 }

/-- The full retained output of the C9 witness run. -/
def outBoundsW : List OutRow :=
  [{ time := 0, version := "v1", code := "170", deviceType := "hset", deviceId := "001"
     diff := some 5, beatsSec := none, beatsMin := none, beatsHr := none
     ctr := none, testId := 1, ongoing := false, totalBeats := none },
   rowBoundsW,
   { time := 10, version := "v1", code := "171", deviceType := "hset", deviceId := "001"
     diff := some 0, beatsSec := none, beatsMin := none, beatsHr := none
     ctr := none, testId := 1, ongoing := false, totalBeats := none }]

/-- Claim-side: skip-NaN sum of the `total_beats` column of a bucket. -/
def sumTBQ (g : List OutRow) : ℚ :=
  (g.map (fun o => match o.totalBeats with
                   | some z => (z : ℚ)
                   | none => 0)).sum

/-- Claim-side: in-bucket position and row of the bucket's last
counter-bearing sample. -/
def lastCtrPos (g : List OutRow) : Option (ℕ × OutRow) :=
  (g.enum.filter (fun p => p.2.ctr.isSome)).getLast?

/-- Claim-side reconciliation of one hour bucket, as the amended claim words
it: no counter row means summing the per-sample totals; a counter row `L` in
second-to-last position means `counter[L] - baseline`; any other position
means `counter[L] - baseline` plus the per-sample totals strictly after `L`;
the baseline becomes `counter[L]`. -/
def claimBucket (g : List OutRow) (base : ℚ) : ℚ × ℚ :=
  match lastCtrPos g with
  | none => (sumTBQ g, base)
  | some (k, r) =>
    let c := (r.ctr).getD 0
    if k + 2 = g.length then (c - base, c)
    else (c - base + sumTBQ (g.drop (k + 1)), c)

/-- Claim-side: fold `claimBucket` over a test's chronologically ordered hour
buckets, threading the running baseline. -/
def claimBuckets : List (List OutRow) → ℚ → List ℚ × ℚ
  | [], base => ([], base)
  | g :: gs, base =>
    let r := claimBucket g base
    let rest := claimBuckets gs r.2
    (r.1 :: rest.1, rest.2)

/-- Claim-side: the per-bucket `total_beats` column of the whole run — tests
in first-appearance order, each test's buckets in ascending hour order, each
starting from baseline `0`. -/
def claimTotals (rows : List OutRow) : List ℚ :=
  ((uniqueOrder (rows.map (fun r => r.testId))).map (fun test =>
    let trows := rows.filter (fun r => decide (r.testId = test))
    let keys := sortOn (fun k : ℤ => (k : ℚ))
      (uniqueOrder (trows.map (fun r => hourIdx r.time)))
    (claimBuckets (keys.map (fun k =>
      trows.filter (fun r => decide (hourIdx r.time = k)))) 0).1)).flatten

/-- The hour bucket of a test's indexed rows (`df.groupby([date, hour])`). -/
def hourBucket (trows : List (ℕ × OutRow)) (k : ℤ) : List (ℕ × OutRow) :=
  trows.filter (fun p => decide (hourIdx p.2.time = k))

/-- A contiguous-index witness row: one retained sample with a per-sample
total and no device counter. -/
def rowAggW : OutRow :=
  { time := 30, version := "v1", code := "1.7.0.1", deviceType := "hset", deviceId := "001"
    diff := some 5, beatsSec := some 2, beatsMin := some 120, beatsHr := some 7200
    ctr := none, testId := 1, ongoing := false, totalBeats := some 7 }

/-- The single-row retained output for the C1 witness. -/
def rowsAggW : List OutRow := [rowAggW]

/-- C2.  Scenario A: the pipeline yields one session (all retained rows carry
test id 1) whose two real samples have rate 10 and 12 beats/sec, and a single
hour bucket with `total_beats = floor(5*10) + floor(5*12) = 110`,
`is_hour_complete = false` and `ongoing = false`. -/
theorem scenarioA_pipeline :
    (filter_data cfgScenarioA 0 rowsScenarioA).map
        (fun l => l.map (fun r => (r.testId, r.beatsSec))) =
      .ok [(1, none), (1, some 10), (1, some 12), (1, none)] ∧
    runTotals cfgScenarioA 0 rowsScenarioA =
      .ok [⟨0, 1, 0, 110, 15, 0, 15, "hset", "001", "v1", false, false⟩] := by
  exact ⟨by decide, by decide⟩

/-- C1 counterexample.  In the sorted retained output (second conjunct) the
hour-10 bucket of session 1 consists of the rows at global positions 0, 1
and 5, so its last counter-bearing row L (position 1, counter 100) IS the
second-to-last row of the bucket: the claim's third branch demands
`total_beats = counter[L] - running_baseline = 100 - 0 = 100`.  The code
instead compares L against `hour_group.index[-1] - 1 = 4`, a global index
that belongs to the other session, takes the middle branch, and produces
`(100 - 0) + 3610 = 3710`. -/
theorem aggSecondToLast_cex :
    (filter_data cfgInterleaved 0 rowsInterleaved).map
        (fun l => l.map (fun r => (r.testId, hourIdx r.time, r.ctr, r.totalBeats))) =
      .ok [(1, 10, none, none), (1, 10, some 100, none), (2, 10, none, none),
           (2, 10, none, some 3), (2, 10, none, none), (1, 10, none, some 3610),
           (1, 11, none, none)] ∧
    (runTotals cfgInterleaved 0 rowsInterleaved).map
        (fun l => l.map (fun a => (a.testId, a.hour, a.totalBeats))) =
      .ok [(1, 10, 3710), (1, 11, 0), (2, 10, 3)] ∧
    (3710 : ℚ) ≠ 100 := by
  exact ⟨by decide, by decide, by decide⟩

/-- C4.  The retained output is `[end, start, measurement]` with the run's
last end-code row at index 0; by the claim the ongoing set is exactly the
rows strictly after it (indices 1 and 2) and the end row itself is
`ongoing = false`.  The code's `check_ongoing_test` tests the end-row index
with Python truthiness (`if last_index:`), treats index 0 like "no end code
found", returns 0, and `filter_data` marks ALL rows ongoing, including the
end-code row itself — contradicting both the claim and the function's own
comment ("If no last_index, meaning all the df is an ongoing test"). -/
theorem ongoingTruthiness_bug :
    (filter_data defaultConfig 0 rowsEndFirst).map
        (fun l => l.map (fun r => (r.code, r.ongoing))) =
      .ok [("171", true), ("170", true), ("1.7.0.1", true)] ∧
    check_ongoing_test defaultConfig
        ((filter_data defaultConfig 0 rowsEndFirst).toOption.getD []) = some 0 := by
  exact ⟨by decide, by decide⟩

/-- C5 counterexample.  The retained output is `[start@0, end@5, end@100]`:
the last row's delta from the preceding RETAINED row is 95 > 20 and its code
is not a start code, so the claim demands one synthetic zero-rate sample at
5 + 20 = 25.  The code decides gaps on the `time_diff[sec]` column computed
on the RAW rows before filtering (here 10 s, to the discarded idle
measurement at t = 90), so no synthetic row is inserted at all. -/
theorem gapRawDelta_cex :
    (filter_data defaultConfig 0 rowsStaleDiff).map
        (fun l => l.map (fun r => (r.code, r.time))) =
      .ok [("170", 0), ("171", 5), ("171", 100)] ∧
    ((100 : ℚ) - 5 > 20 ∧ ¬ ((100 : ℚ) - 90 > 20)) := by
  exact ⟨by decide, by decide⟩

/-- C8 counterexample.  Row 2 is an in-session measurement event
(`valid_flag` is on, its code is a measurement code) whose unit key `"x"` is
not in the configured unit table, yet the run does NOT fail: the
zero-time-delta duplicate rule discards the row before the unit lookup is
reached. -/
theorem unitKeyDupSkipped_cex :
    (filter_data defaultConfig 0 rowsDupUnknownUnit).isOk = true ∧
    lookupQ defaultConfig.hrParam "x" = none ∧
    (scanStateAt defaultConfig 0 rowsDupUnknownUnit 2).flag = true ∧
    rowsDupUnknownUnit.get? 2 = some (mkEvent "1.7.0.1" 5 7 "x") ∧
    "1.7.0.1" ∈ defaultConfig.measCode := by
  exact ⟨by decide, by decide, by decide, by decide, by decide⟩

/-- C9 counterexample.  Nothing in the derivation guards against negative
raw values: `value1 = -1` with unit `'s'` is below every cap, reaches the
rounding branch unclamped, and is stored as `rate_sec = -1`, violating
`0 ≤ rate_sec`. -/
theorem negativeRate_cex :
    (filter_data defaultConfig 0 rowsNegValue).map
        (fun l => l.map (fun r => r.beatsSec)) =
      .ok [none, some (-1), none] ∧
    ¬ (0 ≤ (-1 : ℚ)) := by
  exact ⟨by decide, by decide⟩

/-! ### General lemmas about the sorting model -/

theorem insOn_perm {α : Type} (key : α → ℚ) (a : α) (l : List α) :
    (insOn key a l).Perm (a :: l) := by
  induction l with
  | nil => simp [insOn]
  | cons b t ih =>
    by_cases h : key a ≤ key b
    · simp [insOn, h]
    · simp only [insOn, h, if_false]
      exact ((ih.cons b).trans (List.Perm.swap a b t))

theorem sortOn_perm {α : Type} (key : α → ℚ) (l : List α) :
    (sortOn key l).Perm l := by
  induction l with
  | nil => simp [sortOn]
  | cons a t ih => exact (insOn_perm key a (sortOn key t)).trans (ih.cons a)

theorem insOn_sorted {α : Type} (key : α → ℚ) (a : α) (l : List α)
    (h : l.Sorted (fun x y => key x ≤ key y)) :
    (insOn key a l).Sorted (fun x y => key x ≤ key y) := by
  induction l with
  | nil => simp [insOn]
  | cons b t ih =>
    rw [List.sorted_cons] at h
    by_cases hab : key a ≤ key b
    · simp only [insOn, hab, if_true]
      rw [List.sorted_cons]
      refine ⟨?_, by rw [List.sorted_cons]; exact h⟩
      intro x hx
      rcases List.mem_cons.mp hx with rfl | hx
      · exact hab
      · exact le_trans hab (h.1 x hx)
    · simp only [insOn, hab, if_false]
      rw [List.sorted_cons]
      refine ⟨?_, ih h.2⟩
      intro x hx
      rcases (insOn_perm key a t).mem_iff.mp hx with hx2
      rcases List.mem_cons.mp hx2 with rfl | hx3
      · exact le_of_lt (lt_of_not_le hab)
      · exact h.1 x hx3

theorem sortOn_sorted {α : Type} (key : α → ℚ) (l : List α) :
    (sortOn key l).Sorted (fun x y => key x ≤ key y) := by
  induction l with
  | nil => simp [sortOn]
  | cons a t ih => exact insOn_sorted key a (sortOn key t) ih

theorem insOn_filter_key {α : Type} (key : α → ℚ) (a : α) (l : List α) (v : ℚ) :
    (insOn key a l).filter (fun x => decide (key x = v)) =
      if key a = v then a :: l.filter (fun x => decide (key x = v))
      else l.filter (fun x => decide (key x = v)) := by
  induction l with
  | nil => by_cases h : key a = v <;> simp [insOn, List.filter_cons, h]
  | cons b t ih =>
    simp only [insOn]
    by_cases hab : key a ≤ key b
    · rw [if_pos hab]
      by_cases h : key a = v <;> by_cases hbv : key b = v <;>
        simp [List.filter_cons, h, hbv]
    · rw [if_neg hab]
      have hb : key b < key a := lt_of_not_le hab
      by_cases h : key a = v
      · have hbv : ¬ (key b = v) := by rw [← h]; exact ne_of_lt hb
        simp [List.filter_cons, h, hbv, ih]
      · by_cases hbv : key b = v <;> simp [List.filter_cons, h, hbv, ih]

theorem sortOn_filter_key {α : Type} (key : α → ℚ) (l : List α) (v : ℚ) :
    (sortOn key l).filter (fun x => decide (key x = v)) =
      l.filter (fun x => decide (key x = v)) := by
  induction l with
  | nil => rfl
  | cons a t ih =>
    by_cases h : key a = v <;>
      simp [sortOn, insOn_filter_key, h, List.filter, ih]

/-! ### General lemmas about the scan -/

theorem scanFrom_length (cfg : Config) :
    ∀ (rows : List RawRow) (st : ScanSt) (prev : Option RawRow),
      (scanFrom cfg st prev rows).length = rows.length := by
  intro rows
  induction rows with
  | nil => intro st prev; rfl
  | cons r rs ih => intro st prev; simp [scanFrom, ih]

theorem scanFrom_get (cfg : Config) :
    ∀ (rows : List RawRow) (st : ScanSt) (prev : Option RawRow) (i : ℕ) (r : RawRow),
      rows.get? i = some r →
      (scanFrom cfg st prev rows).get? i =
        some (stepEntry cfg ((rows.take i).foldl (fun s x => stepSt cfg s x.code) st)
          (prevAt prev rows i) r) := by
  intro rows
  induction rows with
  | nil => intro st prev i r h; simp at h
  | cons x xs ih =>
    intro st prev i r h
    match i with
    | 0 =>
      rw [show (x :: xs).get? 0 = some x from rfl] at h
      cases h
      rfl
    | Nat.succ j =>
      have h2 : xs.get? j = some r := h
      have ih2 := ih (stepSt cfg st x.code) (some x) j r h2
      have hpa : prevAt (some x) xs j = prevAt prev (x :: xs) (Nat.succ j) := by
        cases j <;> rfl
      rw [show (scanFrom cfg st prev (x :: xs)).get? (Nat.succ j) =
            (scanFrom cfg (stepSt cfg st x.code) (some x) xs).get? j from rfl, ih2, hpa]
      rfl

theorem scanEntries_get (cfg : Config) (lastId : ℕ) (rows : List RawRow) (i : ℕ)
    (r : RawRow) (h : rows.get? i = some r) :
    (scanEntries cfg lastId rows).get? i =
      some (stepEntry cfg (scanStateAt cfg lastId rows i) (prevAt none rows i) r) :=
  scanFrom_get cfg rows ⟨false, lastId⟩ none i r h

theorem stepSt_count (cfg : Config) (st : ScanSt) (c : String) :
    (stepSt cfg st c).count =
      st.count + (if c ∈ cfg.startCode then 1 else 0) := by
  unfold stepSt
  split_ifs with h1 h2 h3 h4 <;> rfl

theorem foldSt_count (cfg : Config) :
    ∀ (l : List RawRow) (st : ScanSt),
      (l.foldl (fun s x => stepSt cfg s x.code) st).count =
        st.count + l.countP (fun x => decide (x.code ∈ cfg.startCode)) := by
  intro l
  induction l with
  | nil => intro st; simp
  | cons x xs ih =>
    intro st
    simp only [List.foldl_cons, List.countP_cons, ih, stepSt_count]
    by_cases h : x.code ∈ cfg.startCode
    · simp [h]
      omega
    · simp [h]

theorem take_len_succ {α : Type} (pre : List α) (x : α) (rest : List α) :
    (pre ++ x :: rest).take (pre.length + 1) = pre ++ [x] := by
  induction pre with
  | nil => simp
  | cons a t ih => simp [ih]

theorem get?_append_len {α : Type} (pre : List α) (l : List α) (n : ℕ) :
    (pre ++ l).get? (pre.length + n) = l.get? n := by
  induction pre with
  | nil => simp
  | cons a t ih =>
    rw [List.length_cons, show t.length + 1 + n = (t.length + n) + 1 by omega]
    exact ih

/-! ### C3: the clamp always applies the first class's cap -/

/-- C3.  For a measurement event whose unit key is recognized, the stored
rate is: the FIRST class's cap value whenever the computed rate exceeds the
event's own class cap (whichever class that is), and the 3-decimal rounding
of the computed rate otherwise.  This is exactly the source's pair of clamp
branches, both of which append `self.cap[0]`. -/
theorem clampFirstCap (cfg : Config) (code : String) (d1 : ℚ) (d2 : String) (u : ℚ)
    (hm : cfg.measCode.getD 0 "" ≠ cfg.measCode.getD 1 "")
    (hcode : code = cfg.measCode.getD 0 "" ∨ code = cfg.measCode.getD 1 "")
    (hu : lookupQ cfg.hrParam d2 = some u) :
    deriveRate cfg code d1 d2 =
      some (if (if code = cfg.measCode.getD 0 "" then cfg.cap.getD 0 0 else cfg.cap.getD 1 0)
              < d1 / u
            then cfg.cap.getD 0 0
            else round3 (d1 / u)) := by
  unfold deriveRate
  rw [hu]
  dsimp only
  rcases hcode with h0 | h1
  · rw [if_pos h0]
    by_cases hgt : cfg.cap.getD 0 0 < d1 / u
    · rw [if_pos ⟨h0, hgt⟩, if_pos hgt]
    · have hno1 : ¬ (code = cfg.measCode.getD 0 "" ∧ d1 / u > cfg.cap.getD 0 0) :=
        fun hc => hgt hc.2
      have hno2 : ¬ (code = cfg.measCode.getD 1 "" ∧ d1 / u > cfg.cap.getD 1 0) :=
        fun hc => hm (h0.symm.trans hc.1)
      rw [if_neg hno1, if_neg hno2, if_neg hgt]
  · have hne : ¬ code = cfg.measCode.getD 0 "" := fun hc => hm (hc.symm.trans h1)
    rw [if_neg hne]
    have hno1 : ¬ (code = cfg.measCode.getD 0 "" ∧ d1 / u > cfg.cap.getD 0 0) :=
      fun hc => hne hc.1
    rw [if_neg hno1]
    by_cases hgt : cfg.cap.getD 1 0 < d1 / u
    · rw [if_pos ⟨h1, hgt⟩, if_pos hgt]
    · have hno2 : ¬ (code = cfg.measCode.getD 1 "" ∧ d1 / u > cfg.cap.getD 1 0) :=
        fun hc => hgt hc.2
      rw [if_neg hno2, if_neg hgt]

/-- Witness for C3 at a concrete input: a second-class (`'200'`) measurement
of 70 beats per second exceeds the second cap 6 but is clamped to the FIRST
cap 5. -/
theorem clampFirstCap_witness :
    deriveRate defaultConfig "200" 70 "s" = some 5 := by
  have h := clampFirstCap defaultConfig "200" 70 "s" 1 (by decide)
    (Or.inr (by decide)) (by decide)
  rw [h]
  decide

/-! ### C7: the zero-time-delta duplicate rule -/

/-- C7.  A measurement event `r` whose time delta from its raw predecessor
`p` is zero is discarded when `p` is not a start code (whether or not a
session is open), and is retained in the current session — with its rate
derived as usual — when `p` is a start code. -/
theorem zeroDeltaDuplicateRule (cfg : Config) (lastId : ℕ) (pre : List RawRow)
    (p r : RawRow) (post : List RawRow)
    (hmeas : r.code ∈ cfg.measCode) (hns : r.code ∉ cfg.startCode)
    (hne : r.code ∉ cfg.endCode) (ht : r.time = p.time) :
    (p.code ∉ cfg.startCode →
       (scanEntries cfg lastId (pre ++ p :: r :: post)).get? (pre.length + 1) =
         some .remove) ∧
    (p.code ∈ cfg.startCode → ∀ u, lookupQ cfg.hrParam r.data2 = some u →
       (scanEntries cfg lastId (pre ++ p :: r :: post)).get? (pre.length + 1) =
         some (.keep (deriveRate cfg r.code r.data1 r.data2) none
           (scanStateAt cfg lastId (pre ++ p :: r :: post) (pre.length + 1)).count)) := by
  have hget : (pre ++ p :: r :: post).get? (pre.length + 1) = some r := by
    rw [show pre.length + 1 = pre.length + 1 from rfl, get?_append_len]
    rfl
  have hprev : prevAt none (pre ++ p :: r :: post) (pre.length + 1) = some p := by
    show (pre ++ p :: r :: post).get? pre.length = some p
    rw [show pre.length = pre.length + 0 by omega, get?_append_len]
    rfl
  have hstep := scanEntries_get cfg lastId (pre ++ p :: r :: post) (pre.length + 1) r hget
  rw [hprev] at hstep
  have hstate : scanStateAt cfg lastId (pre ++ p :: r :: post) (pre.length + 1) =
      stepSt cfg (scanStateAt cfg lastId (pre ++ p :: r :: post) pre.length) p.code := by
    unfold scanStateAt
    rw [take_len_succ, List.take_left, List.foldl_append]
    rfl
  constructor
  · intro hp
    rw [hstep]
    have hdup : (decide (r.time - p.time = 0 ∧ p.code ∉ cfg.startCode)) = true := by
      simp [ht, hp]
    cases hf : (scanStateAt cfg lastId (pre ++ p :: r :: post) (pre.length + 1)).flag
    · have hc1 : ¬ (r.code ∈ cfg.measCode ∧
          (scanStateAt cfg lastId (pre ++ p :: r :: post) (pre.length + 1)).flag = true) := by
        simp [hf]
      have hc2 : ¬ (strIn r.code cfg.totalBeatsCode = true ∧
          (scanStateAt cfg lastId (pre ++ p :: r :: post) (pre.length + 1)).flag = true) := by
        simp [hf]
      have hc3 : ¬ ((scanStateAt cfg lastId (pre ++ p :: r :: post)
          (pre.length + 1)).flag = true) := by
        simp [hf]
      unfold stepEntry
      rw [if_neg hns, if_neg hc1, if_neg hc2, if_neg hne, if_pos hc3]
    · unfold stepEntry
      rw [if_neg hns, if_pos ⟨hmeas, hf⟩]
      dsimp only
      rw [hdup]
      rfl
  · intro hp u hu
    have hflag : (scanStateAt cfg lastId (pre ++ p :: r :: post) (pre.length + 1)).flag = true := by
      rw [hstate]
      unfold stepSt
      rw [if_pos hp]
    rw [hstep]
    unfold stepEntry
    rw [if_neg hns, if_pos ⟨hmeas, hflag⟩]
    dsimp only
    have hdup : (decide (r.time - p.time = 0 ∧ p.code ∉ cfg.startCode)) = false := by
      simp [hp]
    rw [hdup]
    have hdr : ∃ v, deriveRate cfg r.code r.data1 r.data2 = some v := by
      unfold deriveRate
      rw [hu]
      dsimp only
      split_ifs <;> exact ⟨_, rfl⟩
    obtain ⟨v, hv⟩ := hdr
    rw [hv]
    rfl

/-- Witness for C7 at a concrete input: in `[start, meas@5, meas@5]` the
second measurement has zero delta from the first (not a start code), so its
scan entry is `remove`. -/
theorem zeroDeltaDuplicateRule_witness :
    (scanEntries defaultConfig 0
       [mkEvent "170" 0 0 "", mkEvent "1.7.0.1" 5 10 "s",
        mkEvent "1.7.0.1" 5 7 "s"]).get? 2 = some .remove :=
  (zeroDeltaDuplicateRule defaultConfig 0 [mkEvent "170" 0 0 ""]
      (mkEvent "1.7.0.1" 5 10 "s") (mkEvent "1.7.0.1" 5 7 "s") []
      (by decide) (by decide) (by decide) (by decide)).1 (by decide)

/-! ### C10: an end code while idle is retained with the current counter -/

/-- C10.  An end-code event is never discarded, whatever the `valid_flag`
state: its scan entry is `keep` with no rate and no counter value, labeled
with the current session counter — the resumed `lastId` plus the number of
start codes seen so far. -/
theorem idleEndRetained (cfg : Config) (lastId : ℕ) (pre : List RawRow)
    (r : RawRow) (post : List RawRow)
    (hend : r.code ∈ cfg.endCode) (hns : r.code ∉ cfg.startCode)
    (hnm : r.code ∉ cfg.measCode) (hni : strIn r.code cfg.totalBeatsCode = false) :
    (scanEntries cfg lastId (pre ++ r :: post)).get? pre.length =
      some (.keep none none
        (lastId + pre.countP (fun q => decide (q.code ∈ cfg.startCode)))) := by
  have hget : (pre ++ r :: post).get? pre.length = some r := by
    rw [show pre.length = pre.length + 0 by omega, get?_append_len]
    rfl
  rw [scanEntries_get cfg lastId (pre ++ r :: post) pre.length r hget]
  have hstate : scanStateAt cfg lastId (pre ++ r :: post) pre.length =
      pre.foldl (fun s x => stepSt cfg s x.code) ⟨false, lastId⟩ := by
    unfold scanStateAt
    rw [List.take_left]
  unfold stepEntry
  rw [if_neg hns, if_neg (fun hc => hnm hc.1),
    if_neg (fun hc => by rw [hni] at hc; simpa using hc.1), if_pos hend,
    hstate, foldSt_count]

/-- Witness for C10 at a concrete input: with a resumed counter 7 and no
prior start code, the leading end-code event is kept with test id 7 and no
rate or counter values. -/
theorem idleEndRetained_witness :
    (scanEntries defaultConfig 7
       [mkEvent "171" 0 0 "", mkEvent "170" 3 0 ""]).get? 0 =
      some (.keep none none 7) :=
  idleEndRetained defaultConfig 7 [] (mkEvent "171" 0 0 "")
    [mkEvent "170" 3 0 ""] (by decide) (by decide) (by decide) (by decide)

/-! ### C8: unknown unit keys abort the run - unless the row is a discarded
duplicate -/

theorem deriveRate_eq_none (cfg : Config) (code : String) (d1 : ℚ) (d2 : String) :
    deriveRate cfg code d1 d2 = none ↔ lookupQ cfg.hrParam d2 = none := by
  constructor
  · intro hc
    cases hl : lookupQ cfg.hrParam d2 with
    | none => rfl
    | some u =>
      unfold deriveRate at hc
      rw [hl] at hc
      dsimp only at hc
      split_ifs at hc
  · intro hc
    unfold deriveRate
    rw [hc]

theorem dupBool_iff (cfg : Config) (rows : List RawRow) (i : ℕ) (r : RawRow)
    (hr : rows.get? i = some r) :
    ((match prevAt none rows i with
      | some p => decide (r.time - p.time = 0 ∧ p.code ∉ cfg.startCode)
      | none => false) = true) ↔ isDupAt cfg rows i := by
  match i with
  | 0 =>
    show (false = true) ↔ False
    simp
  | Nat.succ j =>
    have hr2 : rows.get? (j + 1) = some r := hr
    show ((match rows.get? j with
      | some p => decide (r.time - p.time = 0 ∧ p.code ∉ cfg.startCode)
      | none => false) = true) ↔
      (match rows.get? j, rows.get? (j + 1) with
       | some p, some r2 => r2.time - p.time = 0 ∧ p.code ∉ cfg.startCode
       | _, _ => False)
    rw [hr2]
    cases hj : rows.get? j with
    | none => simp
    | some p => simp

theorem errUnit_iff (cfg : Config) (lastId : ℕ) (rows : List RawRow) (i : ℕ) :
    (scanEntries cfg lastId rows).get? i = some .errUnit ↔
      badUnitAt cfg lastId rows i := by
  constructor
  · intro h
    have hlen : (scanEntries cfg lastId rows).length = rows.length :=
      scanFrom_length cfg rows ⟨false, lastId⟩ none
    cases hx : rows.get? i with
    | none =>
      exfalso
      have hnone : (scanEntries cfg lastId rows).get? i = none := by
        rw [List.get?_eq_none] at hx ⊢
        omega
      rw [hnone] at h
      cases h
    | some r =>
    rw [scanEntries_get cfg lastId rows i r hx] at h
    have hr := hx
    unfold stepEntry at h
    by_cases h1 : r.code ∈ cfg.startCode
    · rw [if_pos h1] at h; cases h
    rw [if_neg h1] at h
    by_cases h2 : r.code ∈ cfg.measCode ∧ (scanStateAt cfg lastId rows i).flag = true
    · rw [if_pos h2] at h
      by_cases hb : (match prevAt none rows i with
          | some p => decide (r.time - p.time = 0 ∧ p.code ∉ cfg.startCode)
          | none => false) = true
      · rw [if_pos hb] at h; cases h
      · rw [if_neg hb] at h
        cases hd : deriveRate cfg r.code r.data1 r.data2 with
        | none =>
          exact ⟨r, hr, h2.2, h2.1, h1, fun hdup => hb ((dupBool_iff cfg rows i r hr).mpr hdup),
            (deriveRate_eq_none cfg r.code r.data1 r.data2).mp hd⟩
        | some v => rw [hd] at h; cases h
    · rw [if_neg h2] at h
      by_cases h3 : strIn r.code cfg.totalBeatsCode = true ∧
          (scanStateAt cfg lastId rows i).flag = true
      · rw [if_pos h3] at h; cases h
      rw [if_neg h3] at h
      by_cases h4 : r.code ∈ cfg.endCode
      · rw [if_pos h4] at h; cases h
      rw [if_neg h4] at h
      by_cases h5 : ¬ ((scanStateAt cfg lastId rows i).flag = true)
      · rw [if_pos h5] at h; cases h
      · rw [if_neg h5] at h; cases h
  · rintro ⟨r, hr, hflag, hmeas, hns, hnd, hlu⟩
    rw [scanEntries_get cfg lastId rows i r hr]
    unfold stepEntry
    rw [if_neg hns, if_pos ⟨hmeas, hflag⟩]
    rw [if_neg (fun hb => hnd ((dupBool_iff cfg rows i r hr).mp hb)),
      (deriveRate_eq_none cfg r.code r.data1 r.data2).mpr hlu]

/-- C8 amended.  With a unit table containing `'m'` and `'h'` and every row
classifiable by the scan, `filter_data` raises (commits no output) exactly
when some in-session measurement row that is NOT discarded as a
zero-time-delta duplicate carries an unrecognized unit key.  (The original
claim, quantifying over every in-session measurement event, fails: see the
counterexample, where the offending event is a duplicate and the run
succeeds.) -/
theorem unknownUnitAborts (cfg : Config) (lastId : ℕ) (rows : List RawRow)
    (hm : (lookupQ cfg.hrParam "m").isSome = true)
    (hh : (lookupQ cfg.hrParam "h").isSome = true)
    (hcls : ∀ e ∈ scanEntries cfg lastId rows, e ≠ .errUnknown) :
    (∃ msg, filter_data cfg lastId rows = .error msg) ↔
      ∃ i, badUnitAt cfg lastId rows i := by
  unfold filter_data
  by_cases hemp : rows.isEmpty
  · rw [if_pos hemp]
    constructor
    · rintro ⟨msg, hmsg⟩; cases hmsg
    · rintro ⟨i, r, hr, _⟩
      rw [List.isEmpty_iff.mp hemp] at hr
      cases hr
  rw [if_neg hemp]
  by_cases hA : (scanEntries cfg lastId rows).any (fun e => decide (e = .errUnit))
  · rw [if_pos hA]
    constructor
    · intro _
      obtain ⟨e, he, hev⟩ := List.any_eq_true.mp hA
      obtain ⟨n, hn⟩ := List.get?_of_mem he
      refine ⟨n, (errUnit_iff cfg lastId rows n).mp ?_⟩
      rw [hn]
      congr 1
      exact of_decide_eq_true hev
    · intro _
      exact ⟨"KeyError: hr_param_dict", rfl⟩
  · rw [if_neg hA]
    have hB : ¬ (scanEntries cfg lastId rows).any (fun e => decide (e = .errUnknown)) := by
      intro hB
      obtain ⟨e, he, hev⟩ := List.any_eq_true.mp hB
      exact hcls e he (of_decide_eq_true hev)
    rw [if_neg hB]
    obtain ⟨m60, hm2⟩ := Option.isSome_iff_exists.mp hm
    obtain ⟨h3600, hh2⟩ := Option.isSome_iff_exists.mp hh
    rw [hm2, hh2]
    constructor
    · rintro ⟨msg, hmsg⟩; cases hmsg
    · rintro ⟨i, hbad⟩
      exfalso
      apply hA
      rw [List.any_eq_true]
      refine ⟨.errUnit, ?_, by decide⟩
      exact List.get?_mem ((errUnit_iff cfg lastId rows i).mpr hbad)

/-- Witness for the amended C8 at a concrete input: a non-duplicate
in-session measurement with unit key `"x"` makes the run fail. -/
theorem unknownUnitAborts_witness :
    (filter_data defaultConfig 0
      [mkEvent "170" 0 0 "", mkEvent "1.7.0.1" 5 10 "x"]).isOk = false := by
  obtain ⟨msg, hmsg⟩ := (unknownUnitAborts defaultConfig 0
      [mkEvent "170" 0 0 "", mkEvent "1.7.0.1" 5 10 "x"]
      (by decide) (by decide) (by decide)).mpr
    ⟨1, mkEvent "1.7.0.1" 5 10 "x", rfl, by decide, by decide, by decide,
      fun hd => absurd hd.1 (by decide), by decide⟩
  rw [hmsg]
  rfl

/-! ### C5 (amended): exactly one boundary row per detected gap -/

theorem length_filterMap_guard {α β : Type} (f : α → Option β) (l : List α) :
    (l.filterMap f).length = l.countP (fun a => (f a).isSome) := by
  induction l with
  | nil => rfl
  | cons a t ih =>
    cases h : f a with
    | none => simp [List.filterMap_cons, h, List.countP_cons, ih]
    | some b => simp [List.filterMap_cons, h, List.countP_cons, ih]

theorem recalcDiffs_countP (p : OutRow → Bool)
    (hp : ∀ r d, p { r with diff := d } = p r) :
    ∀ l : List OutRow, (recalcDiffs l).countP p = l.countP p := by
  intro l
  induction l with
  | nil => rfl
  | cons r rest ih =>
    cases rest with
    | nil => simp [recalcDiffs, List.countP_cons, hp]
    | cons nxt rest2 =>
      have ih2 : (recalcDiffs (nxt :: rest2)).countP p = (nxt :: rest2).countP p := ih
      simp only [recalcDiffs, List.countP_cons, ih2, hp]

theorem recalcDiffs_mem : ∀ (l : List OutRow) (o : OutRow), o ∈ l →
    ∃ d, { o with diff := d } ∈ recalcDiffs l := by
  intro l
  induction l with
  | nil => intro o ho; cases ho
  | cons r rest ih =>
    intro o ho
    cases rest with
    | nil =>
      rcases List.mem_singleton.mp ho with rfl
      exact ⟨some 0, List.mem_singleton.mpr rfl⟩
    | cons nxt rest2 =>
      rcases List.mem_cons.mp ho with rfl | ho2
      · exact ⟨some (nxt.time - o.time), List.mem_cons_self _ _⟩
      · obtain ⟨d, hd⟩ := ih o ho2
        exact ⟨d, List.mem_cons_of_mem _ hd⟩

/-- C5 amended.  For every row of the gap filler's input whose RECORDED
time delta (the `time_diff[sec]` column, computed on the raw rows before
filtering) exceeds the threshold and whose code is not a start code, the
output contains a synthetic row at `previous_row.time + delta` carrying zero
rates and the row's session id, device identity and ongoing flag; and the
total number of synthetic rows equals the number of such qualifying rows
(exactly one per detected gap, not a full fill).  The original claim, which
measures the delta against the preceding RETAINED row, fails: see the
counterexample. -/
theorem gapBoundaryRows (df : List OutRow) (starts : List String) (delta : ℚ)
    (hns : ∀ o ∈ df, o.code ≠ "added_point") :
    (∀ i p r d, 0 < i → df.get? i = some r → df.get? (i - 1) = some p →
       r.diff = some d → delta < d → r.code ∉ starts →
       ∃ o ∈ handle_data_gaps df starts delta,
         o.code = "added_point" ∧ o.time = p.time + delta ∧
         o.beatsSec = some 0 ∧ o.beatsMin = some 0 ∧ o.beatsHr = some 0 ∧
         o.ctr = none ∧ o.testId = r.testId ∧ o.deviceType = r.deviceType ∧
         o.deviceId = r.deviceId ∧ o.ongoing = r.ongoing) ∧
    (handle_data_gaps df starts delta).countP (fun o => decide (o.code = "added_point")) =
      (List.range df.length).countP (fun i =>
        match df.get? i with
        | some r =>
          match r.diff with
          | some d => decide (d > delta ∧ r.code ∉ starts)
          | none => false
        | none => false) := by
  constructor
  · intro i p r d hi hr hp hd hgt hcode
    set g : OutRow :=
      { time := p.time + delta, version := r.version, code := "added_point"
        deviceType := r.deviceType, deviceId := r.deviceId
        diff := some delta, beatsSec := some 0, beatsMin := some 0
        beatsHr := some 0, ctr := none, testId := r.testId
        ongoing := r.ongoing, totalBeats := none } with hgdef
    have hmemgap : g ∈ gapRowsOf df starts delta := by
      rw [gapRowsOf, List.mem_filterMap]
      refine ⟨i, List.mem_range.mpr ?_, ?_⟩
      · exact (List.get?_eq_some.mp hr).1
      · rw [hr]
        dsimp only
        rw [hd]
        dsimp only
        rw [if_pos ⟨hgt, hcode⟩, if_neg (by omega : ¬ i = 0), hp]
    have hmem2 : g ∈ df ++ gapRowsOf df starts delta := List.mem_append_right _ hmemgap
    have hmem3 : g ∈ sortOn (fun o => o.time) (df ++ gapRowsOf df starts delta) :=
      (sortOn_perm (fun o => o.time) _).mem_iff.mpr hmem2
    obtain ⟨d2, hd2⟩ := recalcDiffs_mem _ g hmem3
    exact ⟨{ g with diff := d2 }, hd2, rfl, rfl, rfl, rfl, rfl, rfl, rfl, rfl, rfl, rfl⟩
  · unfold handle_data_gaps
    have hperm := sortOn_perm (fun o : OutRow => o.time) (df ++ gapRowsOf df starts delta)
    rw [recalcDiffs_countP (fun o => decide (o.code = "added_point")) (fun r d => rfl),
      hperm.countP_eq, List.countP_append]
    have hdf : df.countP (fun o => decide (o.code = "added_point")) = 0 := by
      rw [List.countP_eq_zero]
      intro o ho
      simpa using hns o ho
    have hgap : (gapRowsOf df starts delta).countP
        (fun o => decide (o.code = "added_point")) =
        (gapRowsOf df starts delta).length := by
      rw [List.countP_eq_length]
      intro o ho
      rw [gapRowsOf, List.mem_filterMap] at ho
      obtain ⟨j, _, hj⟩ := ho
      cases hq : df.get? j with
      | none => rw [hq] at hj; cases hj
      | some rj =>
        rw [hq] at hj
        dsimp only at hj
        cases hqd : rj.diff with
        | none => rw [hqd] at hj; cases hj
        | some dj =>
          rw [hqd] at hj
          dsimp only at hj
          by_cases hcond : dj > delta ∧ rj.code ∉ starts
          · rw [if_pos hcond] at hj
            cases hj
            rfl
          · rw [if_neg hcond] at hj; cases hj
    rw [hdf, hgap, gapRowsOf, length_filterMap_guard]
    rw [Nat.zero_add]
    apply List.countP_congr
    intro j hj
    cases hq : df.get? j with
    | none => simp
    | some rj =>
      dsimp only
      cases hqd : rj.diff with
      | none => simp
      | some dj =>
        dsimp only
        by_cases hcond : dj > delta ∧ rj.code ∉ starts
        · rw [if_pos hcond]
          simp [hcond]
        · rw [if_neg hcond]
          simp [hcond]

/-- Witness for the amended C5 at a concrete input: one detected gap, one
synthetic boundary row in the output. -/
theorem gapBoundaryRows_witness :
    (handle_data_gaps dfGapW ["1.7.0.0", "170"] 20).countP
      (fun o => decide (o.code = "added_point")) = 1 := by
  rw [(gapBoundaryRows dfGapW ["1.7.0.0", "170"] 20 (by decide)).2]
  decide

/-! ### C6 (amended): the resampler pads qualifying intervals at fixed cadence -/

theorem fwdDiffsOK_get : ∀ (df : List RateRow), fwdDiffsOK df →
    ∀ (i : ℕ) (a b : RateRow), df.get? i = some a → df.get? (i + 1) = some b →
    a.diff = some (b.time - a.time) := by
  intro df
  induction df with
  | nil => intro _ i a b ha _; cases ha
  | cons x rest ih =>
    intro hok i a b ha hb
    cases rest with
    | nil =>
      cases i with
      | zero => cases hb
      | succ j => cases hb
    | cons y rest2 =>
      cases i with
      | zero =>
        have hb2 : y = b := by
          have : (x :: y :: rest2).get? 1 = some y := rfl
          rw [this] at hb
          cases hb
          rfl
        have ha2 : x = a := by
          have : (x :: y :: rest2).get? 0 = some x := rfl
          rw [this] at ha
          cases ha
          rfl
        rw [← ha2, ← hb2]
        exact hok.1
      | succ j =>
        exact ih hok.2 j a b ha hb

theorem resTime_le (rate d : ℚ) (hr : 0 < rate) (k : ℕ)
    (hk : k < ((d / rate).floor - 1).toNat) :
    ((k : ℚ) + 1) * rate ≤ d - rate := by
  have hm : 0 < (d / rate).floor - 1 := by
    by_contra hc
    push_neg at hc
    have : ((d / rate).floor - 1).toNat = 0 := Int.toNat_of_nonpos hc
    omega
  have h1 : (k : ℚ) + 1 ≤ (((d / rate).floor - 1).toNat : ℚ) := by
    exact_mod_cast hk
  have h2 : ((((d / rate).floor - 1).toNat : ℤ) : ℚ) = ((d / rate).floor : ℚ) - 1 := by
    rw [Int.toNat_of_nonneg (le_of_lt hm)]
    push_cast
    ring
  have h3 : (k : ℚ) + 1 ≤ ((d / rate).floor : ℚ) - 1 := by
    rw [← h2]
    exact_mod_cast h1
  have h4 : ((d / rate).floor : ℚ) ≤ d / rate := Int.floor_le (d / rate)
  have h5 : (k : ℚ) + 1 ≤ d / rate - 1 := le_trans h3 (by linarith)
  have h6 : ((k : ℚ) + 1) * rate ≤ (d / rate - 1) * rate :=
    mul_le_mul_of_nonneg_right h5 (le_of_lt hr)
  have h7 : (d / rate - 1) * rate = d - rate := by
    field_simp
  linarith

theorem sum_range_single (f : ℕ → ℕ) :
    ∀ (m i : ℕ), i < m → (∀ j, j < m → j ≠ i → f j = 0) →
      ((List.range m).map f).sum = f i := by
  intro m
  induction m with
  | zero => intro i hi; omega
  | succ m ih =>
    intro i hi h0
    rw [List.range_succ, List.map_append, List.sum_append]
    by_cases him : i = m
    · have hz : ((List.range m).map f).sum = 0 := by
        apply List.sum_eq_zero
        intro x hx
        rw [List.mem_map] at hx
        obtain ⟨j, hj, rfl⟩ := hx
        rw [List.mem_range] at hj
        exact h0 j (by omega) (by omega)
      rw [hz, him]
      simp
    · have hm : f m = 0 := h0 m (by omega) (fun hc => him hc.symm)
      rw [ih i (by omega) (fun j hj hji => h0 j (by omega) hji)]
      simp [hm]

theorem pairwise_get?_le (df : List RateRow)
    (hs : df.Pairwise (fun x y => x.time ≤ y.time))
    (m n : ℕ) (x y : RateRow) (hmn : m ≤ n)
    (hx : df.get? m = some x) (hy : df.get? n = some y) :
    x.time ≤ y.time := by
  obtain ⟨hm, hxg⟩ := List.get?_eq_some.mp hx
  obtain ⟨hn, hyg⟩ := List.get?_eq_some.mp hy
  by_cases heq : m = n
  · subst heq
    rw [hxg.symm.trans hyg]
  · have hlt : m < n := by omega
    have := List.pairwise_iff_get.mp hs ⟨m, hm⟩ ⟨n, hn⟩ hlt
    rw [hxg, hyg] at this
    exact this

theorem resBatch_countP_self (df : List RateRow) (rate : ℚ)
    (codes : List String × List String) (i : ℕ) (a b : RateRow)
    (hrate : 0 < rate) (ha : df.get? i = some a)
    (hd : a.diff = some (b.time - a.time))
    (hgap : rate < b.time - a.time)
    (hca1 : a.code ∉ codes.1) (hca2 : a.code ∉ codes.2) :
    (resBatch df rate codes i).countP (inGapPred a b) =
      (((b.time - a.time) / rate).floor - 1).toNat := by
  unfold resBatch
  rw [ha]
  dsimp only
  rw [hd]
  dsimp only
  rw [if_pos ⟨hgap, hca1, hca2⟩, List.countP_map]
  have hall : ∀ k ∈ List.range (((b.time - a.time) / rate).floor - 1).toNat,
      (inGapPred a b ∘ mkResRow a rate) k = true := by
    intro k hk
    rw [List.mem_range] at hk
    apply decide_eq_true
    refine ⟨rfl, ?_, ?_⟩
    · have hpos : 0 < ((k : ℚ) + 1) * rate :=
        mul_pos (by positivity) hrate
      show a.time < a.time + ((k : ℚ) + 1) * rate
      linarith
    · have hle := resTime_le rate (b.time - a.time) hrate k hk
      show a.time + ((k : ℚ) + 1) * rate < b.time
      linarith
  rw [List.countP_eq_length.mpr hall, List.length_range]

theorem resBatch_countP_other (df : List RateRow) (rate : ℚ)
    (codes : List String × List String)
    (hrate : 0 < rate)
    (hsorted : df.Pairwise (fun x y => x.time ≤ y.time))
    (hdiffs : fwdDiffsOK df)
    (i : ℕ) (a b : RateRow)
    (ha : df.get? i = some a) (hb : df.get? (i + 1) = some b)
    (j : ℕ) (hj : j ≠ i) :
    (resBatch df rate codes j).countP (inGapPred a b) = 0 := by
  unfold resBatch
  cases hq : df.get? j with
  | none => rfl
  | some rj =>
    dsimp only
    cases hqd : rj.diff with
    | none => rfl
    | some dj =>
      dsimp only
      by_cases hcond : dj > rate ∧ rj.code ∉ codes.1 ∧ rj.code ∉ codes.2
      · rw [if_pos hcond, List.countP_map, List.countP_eq_zero]
        intro k hk
        rw [List.mem_range] at hk
        simp only [Function.comp, inGapPred, decide_eq_true_eq]
        rintro ⟨-, h2, h3⟩
        by_cases hji : j < i
        · have hjlen : j + 1 < df.length := by
            have := (List.get?_eq_some.mp ha).1
            omega
          cases hgc : df.get? (j + 1) with
          | none =>
            rw [List.get?_eq_none] at hgc
            omega
          | some c =>
            have hdj2 := fwdDiffsOK_get df hdiffs j rj c hq hgc
            rw [hqd] at hdj2
            have hdjv : dj = c.time - rj.time := by
              cases hdj2
              rfl
            have hcta : c.time ≤ a.time :=
              pairwise_get?_le df hsorted (j + 1) i c a (by omega) hgc ha
            have hle := resTime_le rate dj hrate k hk
            rw [hdjv] at hle
            have : rj.time + ((k : ℚ) + 1) * rate ≤ c.time - rate := by linarith
            simp only [mkResRow] at h2
            linarith
        · have hbt : b.time ≤ rj.time :=
            pairwise_get?_le df hsorted (i + 1) j b rj (by omega) hb hq
          have hpos : 0 < ((k : ℚ) + 1) * rate := mul_pos (by positivity) hrate
          simp only [mkResRow] at h3
          linarith
      · rw [if_neg hcond]
        rfl

/-- C6 (amended).  For an interval between consecutive rows `a` (at `i`) and
`b` (at `i+1`) of the gap-filled rate series whose forward delta exceeds the
sampling interval and whose endpoints are not start/end markers, the
resampler inserts exactly `floor(delta/interval) - 1` synthetic rows at
fixed cadence (one interval apart, starting one interval after `a`), each
carrying `a`'s rate values; the merged output is sorted by timestamp and is
the `diff`-cleared image of some timestamp-sorted permutation of the input
followed by the synthetic rows.  No stability conjunct: `sort_values` runs
with its default `kind='quicksort'`, which pandas documents as not stable,
so the relative order of equal-timestamp rows is unspecified (see the
counterexample), and every conclusion here is independent of that order. -/
theorem resampleCadence (df : List RateRow) (rate : ℚ)
    (codes : List String × List String)
    (hrate : 0 < rate)
    (hsorted : df.Pairwise (fun x y => x.time ≤ y.time))
    (hdiffs : fwdDiffsOK df)
    (hns : ∀ o ∈ df, o.code ≠ "added_point")
    (i : ℕ) (a b : RateRow)
    (ha : df.get? i = some a) (hb : df.get? (i + 1) = some b)
    (hgap : rate < b.time - a.time)
    (hca1 : a.code ∉ codes.1) (hca2 : a.code ∉ codes.2)
    (_hcb1 : b.code ∉ codes.1) (_hcb2 : b.code ∉ codes.2) :
    (∀ k, k < (((b.time - a.time) / rate).floor - 1).toNat →
       mkResRow a rate k ∈ resample_df df rate codes) ∧
    (resample_df df rate codes).countP (inGapPred a b) =
      (((b.time - a.time) / rate).floor - 1).toNat ∧
    (resample_df df rate codes).Pairwise (fun x y => x.time ≤ y.time) ∧
    (∃ sorted : List RateRow,
       sorted.Perm (df ++ resample_gap_rows df rate codes) ∧
       sorted.Pairwise (fun x y => x.time ≤ y.time) ∧
       resample_df df rate codes = sorted.map (fun o => { o with diff := none })) := by
  have hd : a.diff = some (b.time - a.time) := fwdDiffsOK_get df hdiffs i a b ha hb
  have hilen : i < df.length := (List.get?_eq_some.mp ha).1
  refine ⟨?_, ?_, ?_, ?_⟩
  · intro k hk
    have hbatch : mkResRow a rate k ∈ resBatch df rate codes i := by
      unfold resBatch
      rw [ha]
      dsimp only
      rw [hd]
      dsimp only
      rw [if_pos ⟨hgap, hca1, hca2⟩]
      exact List.mem_map_of_mem _ (List.mem_range.mpr hk)
    have hgaps : mkResRow a rate k ∈ resample_gap_rows df rate codes := by
      unfold resample_gap_rows
      rw [List.mem_flatten]
      exact ⟨resBatch df rate codes i,
        List.mem_map_of_mem _ (List.mem_range.mpr hilen), hbatch⟩
    have hmem2 : mkResRow a rate k ∈ df ++ resample_gap_rows df rate codes :=
      List.mem_append_right _ hgaps
    have hmem3 : mkResRow a rate k ∈
        sortOn (fun o => o.time) (df ++ resample_gap_rows df rate codes) :=
      (sortOn_perm (fun o : RateRow => o.time) _).mem_iff.mpr hmem2
    have heq : ({ mkResRow a rate k with diff := none } : RateRow) = mkResRow a rate k := rfl
    unfold resample_df
    rw [← heq]
    exact List.mem_map_of_mem _ hmem3
  · unfold resample_df
    rw [List.countP_map]
    have hcongr : ∀ o ∈ sortOn (fun o : RateRow => o.time)
        (df ++ resample_gap_rows df rate codes),
        ((inGapPred a b ∘ fun o => { o with diff := none }) o = true ↔
          inGapPred a b o = true) :=
      fun o _ => Iff.rfl
    rw [List.countP_congr hcongr,
      (sortOn_perm (fun o : RateRow => o.time) _).countP_eq,
      List.countP_append]
    have hdf0 : df.countP (inGapPred a b) = 0 := by
      rw [List.countP_eq_zero]
      intro o ho hp
      rw [inGapPred, decide_eq_true_eq] at hp
      exact hns o ho hp.1
    have hgapsum : (resample_gap_rows df rate codes).countP (inGapPred a b) =
        (((b.time - a.time) / rate).floor - 1).toNat := by
      unfold resample_gap_rows
      rw [List.countP_flatten, List.map_map]
      rw [sum_range_single _ df.length i hilen]
      · exact resBatch_countP_self df rate codes i a b hrate ha hd hgap hca1 hca2
      · intro j hjlen hji
        exact resBatch_countP_other df rate codes hrate hsorted hdiffs i a b ha hb j hji
    rw [hdf0, hgapsum, Nat.zero_add]
  · unfold resample_df
    exact (sortOn_sorted (fun o : RateRow => o.time) _).map _ (fun x y hxy => hxy)
  · exact ⟨sortOn (fun o : RateRow => o.time) (df ++ resample_gap_rows df rate codes),
      sortOn_perm _ _, sortOn_sorted _ _, rfl⟩

/-- Witness for C6 at a concrete input: a 35 s interval at sampling interval
10 s receives exactly `floor(35/10) - 1 = 2` synthetic rows. -/
theorem resampleCadence_witness :
    (resample_df [rowResA, rowResB] 10 (["1.7.0.0", "170"], ["1.7.1.0", "171"])).countP
      (inGapPred rowResA rowResB) = 2 := by
  rw [(resampleCadence [rowResA, rowResB] 10 (["1.7.0.0", "170"], ["1.7.1.0", "171"])
    (by decide)
    (by refine List.Pairwise.cons ?_ (List.pairwise_singleton _ _)
        intro y hy
        rw [List.mem_singleton] at hy
        subst hy
        decide)
    ⟨by decide, trivial⟩
    (by decide)
    0 rowResA rowResB rfl rfl (by decide) (by decide) (by decide) (by decide)
    (by decide)).2.1]
  decide

/-- C6, counterexample to the original claim's stable-sort conjunct.  The
source sorts with `sort_values` at its default `kind='quicksort'`, which
pandas documents as not stable, so its contract only promises a
timestamp-sorted permutation of the merged rows.  On a series with two
equal-timestamp rows (a retained start code and a zero-delta measurement)
there is a timestamp-sorted permutation that reverses the tie — an output
the contract permits, under which equal-timestamp rows do not keep their
pre-sort order and which differs from the stable resolution `sortOn`. -/
theorem resampleTieOrder_cex :
    ∃ out : List RateRow,
      out.Perm (dfTieW ++
        resample_gap_rows dfTieW 10 (["1.7.0.0", "170"], ["1.7.1.0", "171"])) ∧
      out.Pairwise (fun x y => x.time ≤ y.time) ∧
      out.filter (fun o => decide (o.time = 5)) ≠
        (dfTieW ++
          resample_gap_rows dfTieW 10 (["1.7.0.0", "170"], ["1.7.1.0", "171"])).filter
          (fun o => decide (o.time = 5)) ∧
      out ≠ sortOn (fun r => r.time) (dfTieW ++
        resample_gap_rows dfTieW 10 (["1.7.0.0", "170"], ["1.7.1.0", "171"])) :=
  ⟨[rowTieB, rowTieA], by decide, by decide, by decide, by decide⟩

/-! ### C9 (amended): rate bounds and unit conversions -/

theorem ratFloor_eq_floor (q : ℚ) : q.floor = ⌊q⌋ := rfl

theorem roundHE_nonneg (q : ℚ) (h : 0 ≤ q) : 0 ≤ roundHE q := by
  unfold roundHE
  have hf : (0 : ℤ) ≤ ⌊q⌋ := Int.floor_nonneg.mpr h
  rw [ratFloor_eq_floor]
  dsimp only
  split_ifs <;> omega

theorem roundHE_le_int (q : ℚ) (N : ℤ) (h : q ≤ (N : ℚ)) : roundHE q ≤ N := by
  unfold roundHE
  rw [ratFloor_eq_floor]
  dsimp only
  have hf : ⌊q⌋ ≤ N := by
    have := Int.floor_mono h
    rwa [Int.floor_intCast] at this
  rcases lt_or_eq_of_le hf with hlt | heq
  · split_ifs <;> omega
  · have hql : (⌊q⌋ : ℚ) ≤ q := Int.floor_le q
    split_ifs with h1 h2 h3
    · omega
    · exfalso
      rw [heq] at h2
      have : q - (N : ℚ) ≤ 0 := by linarith
      linarith
    · omega
    · exfalso
      have hge : ¬ (q - (⌊q⌋ : ℚ) < 1/2) := h1
      rw [heq] at hge
      have : q - (N : ℚ) ≤ 0 := by linarith
      push_neg at hge
      linarith

theorem round3_nonneg (q : ℚ) (h : 0 ≤ q) : 0 ≤ round3 q := by
  unfold round3
  have := roundHE_nonneg (q * 1000) (by positivity)
  positivity

theorem round3_le (q c : ℚ) (hqc : q ≤ c) (hc : (c * 1000).den = 1) :
    round3 q ≤ c := by
  unfold round3
  have hN : (((c * 1000).num : ℚ)) = c * 1000 := (Rat.den_eq_one_iff (c * 1000)).mp hc
  have h1 : q * 1000 ≤ ((c * 1000).num : ℚ) := by
    rw [hN]
    linarith
  have h2 : roundHE (q * 1000) ≤ (c * 1000).num := roundHE_le_int _ _ h1
  have h3 : ((roundHE (q * 1000) : ℚ)) ≤ ((c * 1000).num : ℚ) := by exact_mod_cast h2
  rw [hN] at h3
  linarith

theorem deriveRate_bounds (cfg : Config)
    (hmeas2 : ∀ c ∈ cfg.measCode,
      c = cfg.measCode.getD 0 "" ∨ c = cfg.measCode.getD 1 "")
    (h0 : 0 ≤ cfg.cap.getD 0 0) (h01 : cfg.cap.getD 0 0 ≤ cfg.cap.getD 1 0)
    (hg0 : (cfg.cap.getD 0 0 * 1000).den = 1) (hg1 : (cfg.cap.getD 1 0 * 1000).den = 1)
    (hunits : ∀ kv ∈ cfg.hrParam, 0 < kv.2)
    (code : String) (hcode : code ∈ cfg.measCode) (d1 : ℚ) (hd1 : 0 ≤ d1) (d2 : String)
    (q : ℚ) (hq : deriveRate cfg code d1 d2 = some q) :
    0 ≤ q ∧ q ≤ cfg.cap.getD 1 0 ∧
      (code = cfg.measCode.getD 0 "" → q ≤ cfg.cap.getD 0 0) := by
  unfold deriveRate at hq
  cases hl : lookupQ cfg.hrParam d2 with
  | none =>
    rw [hl] at hq
    cases hq
  | some u =>
    rw [hl] at hq
    dsimp only at hq
    have hu : 0 < u := by
      unfold lookupQ at hl
      obtain ⟨pr, hpr, hpr2⟩ := Option.map_eq_some'.mp hl
      have := hunits pr (List.mem_of_find?_eq_some hpr)
      rw [hpr2] at this
      exact this
    have hhr : 0 ≤ d1 / u := div_nonneg hd1 (le_of_lt hu)
    split_ifs at hq with h1 h2
    · cases hq
      exact ⟨h0, h01, fun _ => le_refl _⟩
    · cases hq
      exact ⟨h0, h01, fun _ => le_refl _⟩
    · cases hq
      have hcap : d1 / u ≤ cfg.cap.getD 1 0 := by
        rcases hmeas2 code hcode with hc0 | hc1
        · have : ¬ d1 / u > cfg.cap.getD 0 0 := fun hgt => h1 ⟨hc0, hgt⟩
          push_neg at this
          linarith
        · have : ¬ d1 / u > cfg.cap.getD 1 0 := fun hgt => h2 ⟨hc1, hgt⟩
          push_neg at this
          linarith
      refine ⟨round3_nonneg _ hhr, round3_le _ _ hcap hg1, ?_⟩
      intro hc0
      have : ¬ d1 / u > cfg.cap.getD 0 0 := fun hgt => h1 ⟨hc0, hgt⟩
      push_neg at this
      exact round3_le _ _ this hg0

theorem stepEntry_keep_rate (cfg : Config) (st : ScanSt) (prev : Option RawRow)
    (r : RawRow) (q : ℚ) (ctr : Option ℚ) (tid : ℕ)
    (h : stepEntry cfg st prev r = .keep (some q) ctr tid) :
    r.code ∈ cfg.measCode ∧ deriveRate cfg r.code r.data1 r.data2 = some q := by
  unfold stepEntry at h
  by_cases h1 : r.code ∈ cfg.startCode
  · rw [if_pos h1] at h
    cases h
  rw [if_neg h1] at h
  by_cases h2 : r.code ∈ cfg.measCode ∧ st.flag = true
  · rw [if_pos h2] at h
    cases prev with
    | none =>
      dsimp only at h
      rw [if_neg (by simp : ¬ (false = true))] at h
      cases hd : deriveRate cfg r.code r.data1 r.data2 with
      | none =>
        rw [hd] at h
        cases h
      | some v =>
        rw [hd] at h
        cases h
        exact ⟨h2.1, rfl⟩
    | some p =>
      dsimp only at h
      by_cases hb : decide (r.time - p.time = 0 ∧ p.code ∉ cfg.startCode) = true
      · rw [if_pos hb] at h
        cases h
      · rw [if_neg hb] at h
        cases hd : deriveRate cfg r.code r.data1 r.data2 with
        | none =>
          rw [hd] at h
          cases h
        | some v =>
          rw [hd] at h
          cases h
          exact ⟨h2.1, rfl⟩
  rw [if_neg h2] at h
  by_cases h3 : strIn r.code cfg.totalBeatsCode = true ∧ st.flag = true
  · rw [if_pos h3] at h
    cases h
  rw [if_neg h3] at h
  by_cases h4 : r.code ∈ cfg.endCode
  · rw [if_pos h4] at h
    cases h
  rw [if_neg h4] at h
  by_cases h5 : ¬ (st.flag = true)
  · rw [if_pos h5] at h
    cases h
  · rw [if_neg h5] at h
    cases h

theorem zip_get? {α β : Type} :
    ∀ (l1 : List α) (l2 : List β) (i : ℕ) (a : α) (b : β),
      (l1.zip l2).get? i = some (a, b) →
      l1.get? i = some a ∧ l2.get? i = some b := by
  intro l1
  induction l1 with
  | nil => intro l2 i a b h; cases h
  | cons x xs ih =>
    intro l2 i a b h
    cases l2 with
    | nil => cases h
    | cons y ys =>
      cases i with
      | zero =>
        have h2 : some (x, y) = some (a, b) := h
        cases h2
        exact ⟨rfl, rfl⟩
      | succ j => exact ih ys j a b h

theorem recalcDiffs_mem_rev : ∀ (l : List OutRow) (o : OutRow),
    o ∈ recalcDiffs l → ∃ g ∈ l, ∃ d, o = { g with diff := d } := by
  intro l
  induction l with
  | nil => intro o ho; cases ho
  | cons r rest ih =>
    intro o ho
    cases rest with
    | nil =>
      rcases List.mem_singleton.mp ho with rfl
      exact ⟨r, List.mem_singleton.mpr rfl, some 0, rfl⟩
    | cons nxt rest2 =>
      rcases List.mem_cons.mp ho with rfl | ho2
      · exact ⟨r, List.mem_cons_self _ _, some (nxt.time - r.time), rfl⟩
      · obtain ⟨g, hg, d, hd⟩ := ih o ho2
        exact ⟨g, List.mem_cons_of_mem _ hg, d, hd⟩

theorem applyOngoing_mem (cfg : Config) (l : List OutRow) (o : OutRow)
    (ho : o ∈ applyOngoing cfg l) :
    ∃ g ∈ l, o = g ∨ o = { g with ongoing := true } := by
  unfold applyOngoing at ho
  cases hc : check_ongoing_test cfg l with
  | none =>
    rw [hc] at ho
    exact ⟨o, ho, Or.inl rfl⟩
  | some lv =>
    rw [hc] at ho
    rw [List.mem_map] at ho
    obtain ⟨p, hp, hpe⟩ := ho
    have hsnd : p.2 ∈ l := by
      have := List.mem_map_of_mem Prod.snd hp
      rwa [List.enum_map_snd] at this
    by_cases hle : lv ≤ p.1
    · rw [if_pos hle] at hpe
      exact ⟨p.2, hsnd, Or.inr hpe.symm⟩
    · rw [if_neg hle] at hpe
      exact ⟨p.2, hsnd, Or.inl hpe.symm⟩

theorem gapRows_rateBounds (cfg : Config) (df : List OutRow) (starts : List String)
    (delta : ℚ) (h0 : 0 ≤ cfg.cap.getD 0 0) (h01 : cfg.cap.getD 0 0 ≤ cfg.cap.getD 1 0) :
    ∀ o ∈ gapRowsOf df starts delta, rateBounds cfg o := by
  intro o ho
  rw [gapRowsOf, List.mem_filterMap] at ho
  obtain ⟨i, _, hi⟩ := ho
  cases hq : df.get? i with
  | none =>
    rw [hq] at hi
    cases hi
  | some r =>
    rw [hq] at hi
    dsimp only at hi
    cases hqd : r.diff with
    | none =>
      rw [hqd] at hi
      cases hi
    | some d =>
      rw [hqd] at hi
      dsimp only at hi
      by_cases hcond : d > delta ∧ r.code ∉ starts
      · rw [if_pos hcond] at hi
        cases hi
        refine ⟨?_, by rfl, by rfl⟩
        intro q hq2
        cases hq2
        exact ⟨le_refl 0, le_trans h0 h01, fun _ => h0⟩
      · rw [if_neg hcond] at hi
        cases hi

/-- C9 amended.  Under the conditions the shipped configuration satisfies
(caps nonnegative, first cap at most the second, caps on the 0.001 grid, a
positive unit table containing `m = 60` and `h = 3600`, at most the two
configured measurement codes) and nonnegative raw values, every retained row
satisfies `0 ≤ rate_sec ≤ cap` (the row's own class cap on first-class
rows) and the minute/hour rates are the rounded conversions.  The original
unconditional claim fails on negative raw values: see the counterexample. -/
theorem ratesBounded (cfg : Config) (lastId : ℕ) (rows : List RawRow) (out : List OutRow)
    (hmeas2 : ∀ c ∈ cfg.measCode,
      c = cfg.measCode.getD 0 "" ∨ c = cfg.measCode.getD 1 "")
    (h0 : 0 ≤ cfg.cap.getD 0 0) (h01 : cfg.cap.getD 0 0 ≤ cfg.cap.getD 1 0)
    (hg0 : (cfg.cap.getD 0 0 * 1000).den = 1) (hg1 : (cfg.cap.getD 1 0 * 1000).den = 1)
    (hunits : ∀ kv ∈ cfg.hrParam, 0 < kv.2)
    (hd1 : ∀ r ∈ rows, 0 ≤ r.data1)
    (hm : lookupQ cfg.hrParam "m" = some 60) (hh : lookupQ cfg.hrParam "h" = some 3600)
    (hok : filter_data cfg lastId rows = .ok out) :
    ∀ o ∈ out, rateBounds cfg o := by
  unfold filter_data at hok
  by_cases hemp : rows.isEmpty
  · rw [if_pos hemp] at hok
    cases hok
    intro o ho
    cases ho
  rw [if_neg hemp] at hok
  by_cases hA : (scanEntries cfg lastId rows).any (fun e => decide (e = Entry.errUnit))
  · rw [if_pos hA] at hok
    cases hok
  rw [if_neg hA] at hok
  by_cases hB : (scanEntries cfg lastId rows).any (fun e => decide (e = Entry.errUnknown))
  · rw [if_pos hB] at hok
    cases hok
  rw [if_neg hB] at hok
  rw [hm, hh] at hok
  dsimp only at hok
  cases hok
  have hkept : ∀ o ∈ ((rows.zip (backDiffs rows)).zip (scanEntries cfg lastId rows)).filterMap
      (fun t => match t.2 with
        | Entry.keep bs ctr tid => some (mkOutRow 60 3600 t.1.1 t.1.2 bs ctr tid)
        | _ => none), rateBounds cfg o := by
    intro o ho
    rw [List.mem_filterMap] at ho
    obtain ⟨t, ht, hf⟩ := ho
    obtain ⟨i, hti⟩ := List.get?_of_mem ht
    obtain ⟨hz1, hent⟩ := zip_get? (rows.zip (backDiffs rows))
      (scanEntries cfg lastId rows) i t.1 t.2 hti
    obtain ⟨hraw, hdiff⟩ := zip_get? rows (backDiffs rows) i t.1.1 t.1.2 hz1
    cases he : t.2 with
    | remove => rw [he] at hf; cases hf
    | errUnit => rw [he] at hf; cases hf
    | errUnknown => rw [he] at hf; cases hf
    | keep bs ctr tid =>
      rw [he] at hf
      cases hf
      refine ⟨?_, rfl, rfl⟩
      intro q hq
      have hq2 : bs = some q := hq
      rw [he, hq2] at hent
      have hstep := scanEntries_get cfg lastId rows i t.1.1 hraw
      rw [hent] at hstep
      have hse : stepEntry cfg (scanStateAt cfg lastId rows i)
          (prevAt none rows i) t.1.1 = Entry.keep (some q) ctr tid :=
        (Option.some.inj hstep).symm
      obtain ⟨hmc, hdr⟩ := stepEntry_keep_rate cfg _ _ _ _ _ _ hse
      have hbounds := deriveRate_bounds cfg hmeas2 h0 h01 hg0 hg1 hunits
        t.1.1.code hmc t.1.1.data1 (hd1 t.1.1 (List.get?_mem hraw)) t.1.1.data2 q hdr
      exact hbounds
  intro o ho
  unfold setTotalBeats at ho
  rw [List.mem_map] at ho
  obtain ⟨g1, hg1mem, rfl⟩ := ho
  unfold handle_data_gaps at hg1mem
  have hrec := recalcDiffs_mem_rev _ g1 hg1mem
  obtain ⟨g2, hg2mem, d2, rfl⟩ := hrec
  have hg3 := (sortOn_perm (fun o : OutRow => o.time) _).mem_iff.mp hg2mem
  rcases List.mem_append.mp hg3 with hx | hgap
  · obtain ⟨g4, hg4, hcase⟩ := applyOngoing_mem cfg _ g2 hx
    have hg4b : rateBounds cfg g4 := hkept g4 hg4
    rcases hcase with rfl | rfl
    · exact hg4b
    · exact hg4b
  · exact gapRows_rateBounds cfg _ _ _ h0 h01 g2 hgap

/-- Witness for the amended C9 at a concrete input: the retained measurement
row (3 beats/sec under the default caps [5, 6]) satisfies the bounds. -/
theorem ratesBounded_witness : rateBounds defaultConfig rowBoundsW :=
  ratesBounded defaultConfig 0 rowsBoundsW outBoundsW
    (by decide) (by decide) (by decide) (by decide) (by decide) (by decide)
    (by decide) (by decide) (by decide) (by decide)
    rowBoundsW (by decide)

/-! ### C1 (amended): the aggregator's counter reconciliation -/

theorem enumFrom_shift {α : Type} :
    ∀ (l : List α) (n m : ℕ),
      l.enumFrom (n + m) = (l.enumFrom m).map (fun p => (n + p.1, p.2)) := by
  intro l
  induction l with
  | nil => intro n m; rfl
  | cons x t ih =>
    intro n m
    show (n + m, x) :: t.enumFrom (n + m + 1) = (n + m, x) :: _
    rw [show n + m + 1 = n + (m + 1) by omega, ih n (m + 1)]

theorem enumFrom_getLast_fst {α : Type} :
    ∀ (l : List α) (n : ℕ), l ≠ [] →
      ((l.enumFrom n).getLast?).map Prod.fst = some (n + l.length - 1) := by
  intro l
  induction l with
  | nil => intro n h; cases h rfl
  | cons x t ih =>
    intro n _
    cases t with
    | nil => rfl
    | cons y t2 =>
      show (((n, x) :: (y :: t2).enumFrom (n + 1)).getLast?).map Prod.fst = _
      rw [show ((n, x) :: (y :: t2).enumFrom (n + 1)).getLast? =
            ((y :: t2).enumFrom (n + 1)).getLast? from rfl]
      rw [ih (n + 1) (by simp)]
      congr 1
      simp
      omega

theorem enumFrom_get? {α : Type} :
    ∀ (l : List α) (n i : ℕ),
      (l.enumFrom n).get? i = (l.get? i).map (fun x => (n + i, x)) := by
  intro l
  induction l with
  | nil => intro n i; cases i <;> rfl
  | cons x t ih =>
    intro n i
    cases i with
    | zero => rfl
    | succ j =>
      show (t.enumFrom (n + 1)).get? j = (t.get? j).map (fun x => (n + (j + 1), x))
      rw [ih (n + 1) j]
      congr 1
      funext y
      simp
      omega

theorem enumFrom_find_idx {α : Type} :
    ∀ (l : List α) (m k : ℕ), m ≤ k →
      (l.enumFrom m).find? (fun p => decide (p.1 = k)) =
        (l.get? (k - m)).map (fun x => (k, x)) := by
  intro l
  induction l with
  | nil => intro m k _; rfl
  | cons x t ih =>
    intro m k hmk
    by_cases heq : m = k
    · subst heq
      show List.find? _ ((m, x) :: t.enumFrom (m + 1)) = _
      rw [List.find?_cons_of_pos _ (by simp)]
      simp
    · show List.find? _ ((m, x) :: t.enumFrom (m + 1)) = _
      rw [List.find?_cons_of_neg _ (by simp [heq]), ih (m + 1) k (by omega)]
      rw [show k - m = (k - (m + 1)) + 1 by omega]
      rfl

theorem enumFrom_filter_ge {α : Type} :
    ∀ (l : List α) (n m : ℕ),
      ((l.enumFrom n).filter (fun p => decide (m ≤ p.1))).map Prod.snd =
        l.drop (m - n) := by
  intro l
  induction l with
  | nil => intro n m; simp
  | cons x t ih =>
    intro n m
    show (List.filter _ ((n, x) :: t.enumFrom (n + 1))).map Prod.snd = _
    by_cases hmn : m ≤ n
    · rw [List.filter_cons_of_pos (by simpa using hmn)]
      have h2 := ih (n + 1) m
      rw [show m - (n + 1) = 0 by omega] at h2
      show x :: ((t.enumFrom (n + 1)).filter (fun p => decide (m ≤ p.1))).map Prod.snd = _
      rw [h2, show m - n = 0 by omega]
      rfl
    · rw [List.filter_cons_of_neg (by simpa using hmn)]
      rw [ih (n + 1) m, show m - n = (m - (n + 1)) + 1 by omega]
      rfl

theorem enumFrom_mem_get? {α : Type} :
    ∀ (l : List α) (m : ℕ) (p : ℕ × α), p ∈ l.enumFrom m →
      m ≤ p.1 ∧ l.get? (p.1 - m) = some p.2 := by
  intro l
  induction l with
  | nil => intro m p hp; cases hp
  | cons x t ih =>
    intro m p hp
    rcases List.mem_cons.mp hp with rfl | hp2
    · exact ⟨le_refl m, by simp⟩
    · obtain ⟨h1, h2⟩ := ih (m + 1) p hp2
      refine ⟨by omega, ?_⟩
      rw [show p.1 - m = (p.1 - (m + 1)) + 1 by omega]
      exact h2

theorem enumFrom_filter_snd {α : Type} (q : α → Bool) :
    ∀ (l : List α) (n : ℕ),
      ((l.enumFrom n).filter (fun p => q p.2)).map Prod.snd = l.filter q := by
  intro l
  induction l with
  | nil => intro n; rfl
  | cons x t ih =>
    intro n
    show (List.filter _ ((n, x) :: t.enumFrom (n + 1))).map Prod.snd = _
    cases hq : q x with
    | true =>
      rw [List.filter_cons_of_pos (by simpa using hq),
        List.filter_cons_of_pos hq]
      show x :: ((t.enumFrom (n + 1)).filter (fun p => q p.2)).map Prod.snd = _
      rw [ih (n + 1)]
    | false =>
      rw [List.filter_cons_of_neg (by simpa using hq),
        List.filter_cons_of_neg (by simpa using hq), ih (n + 1)]

theorem chain_eq_enumFrom :
    ∀ (g : List (ℕ × OutRow)), g.Chain' (fun a b => b.1 = a.1 + 1) →
      g = (g.map Prod.snd).enumFrom ((g.head?.map Prod.fst).getD 0) := by
  intro g
  induction g with
  | nil => intro _; rfl
  | cons p rest ih =>
    intro hch
    cases rest with
    | nil =>
      show [p] = [(p.1, p.2)]
      rfl
    | cons p2 rest2 =>
      have hch2 : (p2 :: rest2).Chain' (fun a b => b.1 = a.1 + 1) :=
        (List.chain'_cons.mp hch).2
      have hstep : p2.1 = p.1 + 1 := (List.chain'_cons.mp hch).1
      have ih2 := ih hch2
      show (p.1, p.2) :: (p2 :: rest2) =
        (p.1, p.2) :: ((p2 :: rest2).map Prod.snd).enumFrom (p.1 + 1)
      congr 1
      rw [show p.1 + 1 = p2.1 from hstep.symm]
      calc p2 :: rest2
          = ((p2 :: rest2).map Prod.snd).enumFrom
              (((p2 :: rest2).head?.map Prod.fst).getD 0) := ih2
        _ = ((p2 :: rest2).map Prod.snd).enumFrom p2.1 := rfl

theorem drop_cons_of_get? {α : Type} :
    ∀ (l : List α) (k : ℕ) (x : α), l.get? k = some x →
      l.drop k = x :: l.drop (k + 1) := by
  intro l
  induction l with
  | nil => intro k x h; cases k <;> cases h
  | cons y t ih =>
    intro k x h
    cases k with
    | zero => cases h; rfl
    | succ j => exact ih j x h

theorem sumTB_enumFrom (gC : List OutRow) (n : ℕ) :
    sumTB true (gC.enumFrom n) = .ok (sumTBQ gC) := by
  unfold sumTB sumTBQ
  rw [if_pos rfl]
  congr 1
  conv_rhs => rw [← List.enumFrom_map_snd n gC]
  rw [List.map_map]
  rfl

theorem lastCtrIdx_enumFrom (gC : List OutRow) (n : ℕ) :
    lastCtrIdx (gC.enumFrom n) = (lastCtrPos gC).map (fun p => n + p.1) := by
  unfold lastCtrIdx lastCtrPos
  have h1 : gC.enumFrom n = gC.enum.map (fun p => (n + p.1, p.2)) := by
    have h0 := enumFrom_shift gC n 0
    rw [Nat.add_zero] at h0
    exact h0
  rw [h1, List.filter_map, List.getLast?_map, Option.map_map]
  rfl

theorem uniqueOrder_mem {α : Type} [DecidableEq α] (l : List α) (x : α) :
    x ∈ uniqueOrder l ↔ x ∈ l := by
  unfold uniqueOrder
  have key : ∀ (t : List α) (acc : List α),
      x ∈ t.foldl (fun acc x => if x ∈ acc then acc else acc ++ [x]) acc ↔
        x ∈ acc ∨ x ∈ t := by
    intro t
    induction t with
    | nil => intro acc; simp
    | cons y s ih =>
      intro acc
      show x ∈ s.foldl _ (if y ∈ acc then acc else acc ++ [y]) ↔ _
      rw [ih]
      by_cases hy : y ∈ acc
      · rw [if_pos hy]
        constructor
        · rintro (h | h)
          · exact Or.inl h
          · exact Or.inr (List.mem_cons_of_mem y h)
        · rintro (h | h)
          · exact Or.inl h
          · rcases List.mem_cons.mp h with rfl | h2
            · exact Or.inl hy
            · exact Or.inr h2
      · rw [if_neg hy]
        constructor
        · rintro (h | h)
          · rcases List.mem_append.mp h with h2 | h2
            · exact Or.inl h2
            · have hxy : x = y := List.mem_singleton.mp h2
              subst hxy
              exact Or.inr (List.mem_cons_self x s)
          · exact Or.inr (List.mem_cons_of_mem y h)
        · rintro (h | h)
          · exact Or.inl (List.mem_append_left _ h)
          · rcases List.mem_cons.mp h with rfl | h2
            · exact Or.inl (List.mem_append_right _ (List.mem_singleton.mpr rfl))
            · exact Or.inr h2
  rw [key l []]
  simp

theorem exceptBind_ok {e a b : Type} (x : Except e a) (y : a) (f : a → Except e b)
    (h : x = .ok y) : (x >>= f) = f y := by
  rw [h]
  rfl

theorem lastIdxOf_enumFrom (gC : List OutRow) (n : ℕ) (hne : gC ≠ []) :
    lastIdxOf (gC.enumFrom n) = n + gC.length - 1 := by
  unfold lastIdxOf
  have hg := enumFrom_getLast_fst gC n hne
  rw [show (fun p : ℕ × OutRow => p.1) = Prod.fst from rfl, hg]
  rfl

theorem ctrAt_enumFrom (gC : List OutRow) (n k : ℕ) (r : OutRow)
    (hget : gC.get? k = some r) :
    ctrAt (gC.enumFrom n) (n + k) = (r.ctr).getD 0 := by
  unfold ctrAt
  rw [enumFrom_find_idx gC n (n + k) (Nat.le_add_right n k),
    show n + k - n = k by omega, hget]
  dsimp only [Option.map, Option.bind]
  cases r.ctr with
  | none => rfl
  | some c => rfl

theorem sumTB_filter_ge (gC : List OutRow) (n m : ℕ) :
    sumTB true ((gC.enumFrom n).filter (fun p => decide (m ≤ p.1))) =
      .ok (sumTBQ (gC.drop (m - n))) := by
  unfold sumTB sumTBQ
  rw [if_pos rfl]
  congr 1
  conv_rhs => rw [← enumFrom_filter_ge gC n m]
  rw [List.map_map]
  rfl

theorem bucketTB_claim (hasCtr : Bool) (gC : List OutRow) (n : ℕ) (base : ℚ)
    (hl0 : ∀ k r, lastCtrPos gC = some (k, r) → n + k ≠ 0)
    (hctb : ∀ r ∈ gC, r.ctr.isSome = true → r.totalBeats = none)
    (hnoctr : hasCtr = false → lastCtrPos gC = none) :
    bucketTB hasCtr true (gC.enumFrom n) base = .ok (claimBucket gC base) := by
  unfold bucketTB claimBucket
  cases hasCtr with
  | false =>
    rw [if_neg (by simp), hnoctr rfl, sumTB_enumFrom]
    rfl
  | true =>
    rw [if_pos rfl, lastCtrIdx_enumFrom]
    cases hlcp : lastCtrPos gC with
    | none =>
      dsimp only [Option.map]
      rw [sumTB_enumFrom]
      rfl
    | some p =>
      obtain ⟨k, r⟩ := p
      have hmemf : (k, r) ∈ gC.enum.filter (fun p => p.2.ctr.isSome) :=
        List.mem_of_mem_getLast? hlcp
      have hmem : (k, r) ∈ gC.enum := List.mem_of_mem_filter hmemf
      have hcs : r.ctr.isSome = true := by
        have h2 := List.of_mem_filter hmemf
        simpa using h2
      have hget : gC.get? k = some r := by
        have h2 := enumFrom_mem_get? gC 0 (k, r) hmem
        simpa using h2.2
      have hklen : k < gC.length := by
        rcases List.get?_eq_some.mp hget with ⟨h, _⟩
        exact h
      have hne : gC ≠ [] := by
        intro h
        rw [h] at hklen
        simp at hklen
      dsimp only [Option.map]
      rw [if_neg (hl0 k r hlcp), ctrAt_enumFrom gC n k r hget,
        lastIdxOf_enumFrom gC n hne]
      by_cases hbr : k + 2 = gC.length
      · rw [if_neg (show ¬(((n + k : ℕ) : ℤ) ≠ ((n + gC.length - 1 : ℕ) : ℤ) - 1) by omega),
          if_pos hbr]
        rfl
      · rw [if_pos (show ((n + k : ℕ) : ℤ) ≠ ((n + gC.length - 1 : ℕ) : ℤ) - 1 by omega),
          if_neg hbr, sumTB_filter_ge gC n (n + k), show n + k - n = k by omega]
        have hdrop : gC.drop k = r :: gC.drop (k + 1) := drop_cons_of_get? gC k r hget
        have htbnone : r.totalBeats = none :=
          hctb r (List.get?_mem hget) hcs
        have hsum : sumTBQ (gC.drop k) = sumTBQ (gC.drop (k + 1)) := by
          rw [hdrop]
          unfold sumTBQ
          rw [List.map_cons, List.sum_cons]
          simp [htbnone]
        rw [hsum]
        rfl

theorem uniqueItem_ok (l : List String) (v : String) (hne : l ≠ [])
    (hall : ∀ y ∈ l, y = v) : uniqueItem l = .ok v := by
  cases l with
  | nil => cases hne rfl
  | cons x xs =>
    have hx : x = v := hall x (List.mem_cons_self x xs)
    subst hx
    unfold uniqueItem
    dsimp only
    rw [if_pos]
    exact List.all_eq_true.mpr fun y hy =>
      decide_eq_true (hall y (List.mem_cons_of_mem x hy))

theorem enumFrom_map_proj {α β : Type} (f : α → β) (l : List α) (n : ℕ) :
    (l.enumFrom n).map (fun p => f p.2) = l.map f := by
  conv_rhs => rw [← List.enumFrom_map_snd n l]
  rw [List.map_map]
  rfl

theorem lastCtrPos_get (g : List OutRow) (k : ℕ) (r : OutRow)
    (h : lastCtrPos g = some (k, r)) :
    g.get? k = some r ∧ r.ctr.isSome = true := by
  have hmemf : (k, r) ∈ g.enum.filter (fun p => p.2.ctr.isSome) :=
    List.mem_of_mem_getLast? h
  have hmem : (k, r) ∈ g.enum := List.mem_of_mem_filter hmemf
  have hcs : r.ctr.isSome = true := by
    have h2 := List.of_mem_filter hmemf
    simpa using h2
  have hget : g.get? k = some r := by
    have h2 := enumFrom_mem_get? g 0 (k, r) hmem
    simpa using h2.2
  exact ⟨hget, hcs⟩

theorem lastCtrPos_none (g : List OutRow) (h : ∀ r ∈ g, r.ctr = none) :
    lastCtrPos g = none := by
  unfold lastCtrPos
  rw [List.filter_eq_nil_iff.mpr]
  · rfl
  · intro p hp
    have hsnd : p.2 ∈ g := by
      have h2 := enumFrom_mem_get? g 0 p hp
      exact List.get?_mem h2.2
    simp [h p.2 hsnd]

theorem bucketsFold_claim (hasCtr : Bool) (test : ℕ) (trows : List (ℕ × OutRow))
    (v dt di : String)
    (hctb : ∀ p ∈ trows, p.2.ctr.isSome = true → p.2.totalBeats = none)
    (huni : ∀ p ∈ trows, p.2.version = v ∧ p.2.deviceType = dt ∧ p.2.deviceId = di) :
    ∀ (ks : List ℤ),
      (∀ k ∈ ks, (hourBucket trows k).map Prod.snd ≠ [] ∧
        (∃ n, hourBucket trows k = ((hourBucket trows k).map Prod.snd).enumFrom n ∧
          ∀ kk r, lastCtrPos ((hourBucket trows k).map Prod.snd) = some (kk, r) →
            n + kk ≠ 0) ∧
        (hasCtr = false → lastCtrPos ((hourBucket trows k).map Prod.snd) = none)) →
      ∀ (acc : List AggRow) (base : ℚ),
      ∃ fin : List AggRow × ℚ,
        List.foldlM (fun (st : List AggRow × ℚ) (k : ℤ) => (do
            let g := trows.filter (fun p => decide (hourIdx p.2.time = k))
            let (tb, base2) ← bucketTB hasCtr true g st.2
            let times := g.map (fun p => p.2.time)
            let ver ← uniqueItem (g.map (fun p => p.2.version))
            let dev ← uniqueItem (g.map (fun p => p.2.deviceType))
            let did ← uniqueItem (g.map (fun p => p.2.deviceId))
            let mins := g.map (fun p => minuteOf p.2.time)
            pure (st.1 ++
              [{ date := Int.fdiv k 24, testId := test, hour := Int.emod k 24
                 totalBeats := tb, totalTime := maxQ times - minQ times
                 startTime := minQ times, endTime := maxQ times
                 deviceType := dev, deviceId := did, version := ver
                 isHourComplete := decide (minZ mins = 0 ∧ maxZ mins = 59)
                 ongoing := g.any (fun p => p.2.ongoing) }], base2) : Except String (List AggRow × ℚ)))
          (acc, base) ks = .ok fin ∧
        fin.1.map (fun a => a.totalBeats) = acc.map (fun a => a.totalBeats) ++
          (claimBuckets (ks.map (fun k => (hourBucket trows k).map Prod.snd)) base).1 ∧
        fin.2 = (claimBuckets (ks.map (fun k => (hourBucket trows k).map Prod.snd)) base).2 := by
  intro ks
  induction ks with
  | nil =>
    intro _ acc base
    refine ⟨(acc, base), rfl, ?_, rfl⟩
    exact (List.append_nil _).symm
  | cons k ks2 ih =>
    intro H acc base
    obtain ⟨hne, ⟨n, hgb, hl0⟩, hnoc⟩ := H k (List.mem_cons_self k ks2)
    have Hrest := fun kk hkk => H kk (List.mem_cons_of_mem k hkk)
    have hctbB : ∀ r ∈ (hourBucket trows k).map Prod.snd,
        r.ctr.isSome = true → r.totalBeats = none := by
      intro r hr
      obtain ⟨p, hp, rfl⟩ := List.mem_map.mp hr
      exact hctb p (List.mem_of_mem_filter hp)
    have hver : ∀ y ∈ ((hourBucket trows k).map Prod.snd).map (fun r => r.version),
        y = v := by
      intro y hy
      obtain ⟨r, hr, rfl⟩ := List.mem_map.mp hy
      obtain ⟨p, hp, rfl⟩ := List.mem_map.mp hr
      exact (huni p (List.mem_of_mem_filter hp)).1
    have hdev : ∀ y ∈ ((hourBucket trows k).map Prod.snd).map (fun r => r.deviceType),
        y = dt := by
      intro y hy
      obtain ⟨r, hr, rfl⟩ := List.mem_map.mp hy
      obtain ⟨p, hp, rfl⟩ := List.mem_map.mp hr
      exact (huni p (List.mem_of_mem_filter hp)).2.1
    have hdid : ∀ y ∈ ((hourBucket trows k).map Prod.snd).map (fun r => r.deviceId),
        y = di := by
      intro y hy
      obtain ⟨r, hr, rfl⟩ := List.mem_map.mp hy
      obtain ⟨p, hp, rfl⟩ := List.mem_map.mp hr
      exact (huni p (List.mem_of_mem_filter hp)).2.2
    have hnemap : ∀ (f : OutRow → String),
        ((hourBucket trows k).map Prod.snd).map f ≠ [] := by
      intro f h
      exact hne (List.map_eq_nil_iff.mp h)
    have hstep0 :
        (fun (st : List AggRow × ℚ) (k : ℤ) => (do
            let g := trows.filter (fun p => decide (hourIdx p.2.time = k))
            let (tb, base2) ← bucketTB hasCtr true g st.2
            let times := g.map (fun p => p.2.time)
            let ver ← uniqueItem (g.map (fun p => p.2.version))
            let dev ← uniqueItem (g.map (fun p => p.2.deviceType))
            let did ← uniqueItem (g.map (fun p => p.2.deviceId))
            let mins := g.map (fun p => minuteOf p.2.time)
            pure (st.1 ++
              [{ date := Int.fdiv k 24, testId := test, hour := Int.emod k 24
                 totalBeats := tb, totalTime := maxQ times - minQ times
                 startTime := minQ times, endTime := maxQ times
                 deviceType := dev, deviceId := did, version := ver
                 isHourComplete := decide (minZ mins = 0 ∧ maxZ mins = 59)
                 ongoing := g.any (fun p => p.2.ongoing) }], base2) : Except String (List AggRow × ℚ)))
          (acc, base) k =
          .ok (acc ++
            [{ date := Int.fdiv k 24, testId := test, hour := Int.emod k 24
               totalBeats := (claimBucket ((hourBucket trows k).map Prod.snd) base).1
               totalTime :=
                 maxQ ((((hourBucket trows k).map Prod.snd).enumFrom n).map (fun p => p.2.time)) -
                   minQ ((((hourBucket trows k).map Prod.snd).enumFrom n).map (fun p => p.2.time))
               startTime := minQ ((((hourBucket trows k).map Prod.snd).enumFrom n).map (fun p => p.2.time))
               endTime := maxQ ((((hourBucket trows k).map Prod.snd).enumFrom n).map (fun p => p.2.time))
               deviceType := dt, deviceId := di, version := v
               isHourComplete := decide
                 (minZ ((((hourBucket trows k).map Prod.snd).enumFrom n).map (fun p => minuteOf p.2.time)) = 0 ∧
                  maxZ ((((hourBucket trows k).map Prod.snd).enumFrom n).map (fun p => minuteOf p.2.time)) = 59)
               ongoing := (((hourBucket trows k).map Prod.snd).enumFrom n).any (fun p => p.2.ongoing) }],
            (claimBucket ((hourBucket trows k).map Prod.snd) base).2) := by
      dsimp only
      conv_lhs =>
        rw [show trows.filter (fun p => decide (hourIdx p.2.time = k)) =
          hourBucket trows k from rfl]
        rw [hgb]
        rw [bucketTB_claim hasCtr ((hourBucket trows k).map Prod.snd) n base
          hl0 hctbB hnoc]
        rw [enumFrom_map_proj (fun r => r.version) ((hourBucket trows k).map Prod.snd) n]
        rw [enumFrom_map_proj (fun r => r.deviceType) ((hourBucket trows k).map Prod.snd) n]
        rw [enumFrom_map_proj (fun r => r.deviceId) ((hourBucket trows k).map Prod.snd) n]
        rw [uniqueItem_ok _ v (hnemap _) hver]
        rw [uniqueItem_ok _ dt (hnemap _) hdev]
        rw [uniqueItem_ok _ di (hnemap _) hdid]
      rfl
    have hstep : ∃ ar : AggRow,
        (fun (st : List AggRow × ℚ) (k : ℤ) => (do
            let g := trows.filter (fun p => decide (hourIdx p.2.time = k))
            let (tb, base2) ← bucketTB hasCtr true g st.2
            let times := g.map (fun p => p.2.time)
            let ver ← uniqueItem (g.map (fun p => p.2.version))
            let dev ← uniqueItem (g.map (fun p => p.2.deviceType))
            let did ← uniqueItem (g.map (fun p => p.2.deviceId))
            let mins := g.map (fun p => minuteOf p.2.time)
            pure (st.1 ++
              [{ date := Int.fdiv k 24, testId := test, hour := Int.emod k 24
                 totalBeats := tb, totalTime := maxQ times - minQ times
                 startTime := minQ times, endTime := maxQ times
                 deviceType := dev, deviceId := did, version := ver
                 isHourComplete := decide (minZ mins = 0 ∧ maxZ mins = 59)
                 ongoing := g.any (fun p => p.2.ongoing) }], base2) : Except String (List AggRow × ℚ)))
          (acc, base) k =
          .ok (acc ++ [ar], (claimBucket ((hourBucket trows k).map Prod.snd) base).2) ∧
        ar.totalBeats = (claimBucket ((hourBucket trows k).map Prod.snd) base).1 := ⟨_, hstep0, rfl⟩
    obtain ⟨ar, har, hartb⟩ := hstep
    obtain ⟨fin, hfold, hmap, hbase⟩ :=
      ih Hrest (acc ++ [ar]) ((claimBucket ((hourBucket trows k).map Prod.snd) base).2)
    refine ⟨fin, ?_, ?_, ?_⟩
    · rw [List.foldlM_cons]
      exact Eq.trans (exceptBind_ok _ _ _ har) hfold
    · rw [hmap, List.map_append, List.append_assoc]
      congr 1
      rw [show ([ar].map fun a => a.totalBeats) = [ar.totalBeats] from rfl, hartb]
      rfl
    · rw [hbase]
      rfl

theorem testAgg_claim (hasCtr : Bool) (test : ℕ) (trows : List (ℕ × OutRow))
    (v dt di : String)
    (hb : ∀ k : ℤ, ∃ n,
      hourBucket trows k = ((hourBucket trows k).map Prod.snd).enumFrom n ∧
      ∀ kk r, lastCtrPos ((hourBucket trows k).map Prod.snd) = some (kk, r) →
        n + kk ≠ 0)
    (hctb : ∀ p ∈ trows, p.2.ctr.isSome = true → p.2.totalBeats = none)
    (huni : ∀ p ∈ trows, p.2.version = v ∧ p.2.deviceType = dt ∧ p.2.deviceId = di)
    (hnoctr : hasCtr = false → ∀ p ∈ trows, p.2.ctr = none) :
    ∃ ars, testAgg hasCtr true test trows = .ok ars ∧
      ars.map (fun a => a.totalBeats) =
        (claimBuckets ((sortOn (fun k : ℤ => (k : ℚ))
          (uniqueOrder (trows.map (fun p => hourIdx p.2.time)))).map
            (fun k => (hourBucket trows k).map Prod.snd)) 0).1 := by
  have H : ∀ k ∈ sortOn (fun k : ℤ => (k : ℚ))
      (uniqueOrder (trows.map (fun p => hourIdx p.2.time))),
      (hourBucket trows k).map Prod.snd ≠ [] ∧
      (∃ n, hourBucket trows k = ((hourBucket trows k).map Prod.snd).enumFrom n ∧
        ∀ kk r, lastCtrPos ((hourBucket trows k).map Prod.snd) = some (kk, r) →
          n + kk ≠ 0) ∧
      (hasCtr = false → lastCtrPos ((hourBucket trows k).map Prod.snd) = none) := by
    intro k hk
    have hk2 : k ∈ uniqueOrder (trows.map (fun p => hourIdx p.2.time)) :=
      ((sortOn_perm (fun k : ℤ => (k : ℚ))
        (uniqueOrder (trows.map (fun p => hourIdx p.2.time)))).mem_iff).mp hk
    have hk3 : k ∈ trows.map (fun p => hourIdx p.2.time) :=
      (uniqueOrder_mem _ k).mp hk2
    obtain ⟨p, hp, hpk⟩ := List.mem_map.mp hk3
    have hpb : p ∈ hourBucket trows k :=
      List.mem_filter.mpr ⟨hp, decide_eq_true hpk⟩
    refine ⟨?_, hb k, ?_⟩
    · exact List.ne_nil_of_mem (List.mem_map_of_mem Prod.snd hpb)
    · intro hfalse
      refine lastCtrPos_none _ ?_
      intro r hr
      obtain ⟨q, hq, rfl⟩ := List.mem_map.mp hr
      exact hnoctr hfalse q (List.mem_of_mem_filter hq)
  obtain ⟨fin, hfold, hmap, _⟩ :=
    bucketsFold_claim hasCtr test trows v dt di hctb huni
      (sortOn (fun k : ℤ => (k : ℚ))
        (uniqueOrder (trows.map (fun p => hourIdx p.2.time)))) H [] 0
  refine ⟨fin.1, ?_, ?_⟩
  · exact Eq.trans (exceptBind_ok _ _ _ hfold) rfl
  · rw [hmap]
    rfl

theorem enumFrom_filter_map_proj {α β : Type} (q : α → Bool) (f : α → β)
    (l : List α) (n : ℕ) :
    ((l.enumFrom n).filter (fun p => q p.2)).map (fun p => f p.2) =
      (l.filter q).map f := by
  rw [← enumFrom_filter_snd q l n, List.map_map]
  rfl

theorem perTest_convert (rows : List OutRow) (test : ℕ) :
    (claimBuckets ((sortOn (fun k : ℤ => (k : ℚ))
      (uniqueOrder ((rows.enum.filter (fun p => decide (p.2.testId = test))).map
        (fun p => hourIdx p.2.time)))).map
        (fun k => (hourBucket (rows.enum.filter
          (fun p => decide (p.2.testId = test))) k).map Prod.snd)) 0).1
    = (claimBuckets ((sortOn (fun k : ℤ => (k : ℚ))
      (uniqueOrder ((rows.filter (fun r => decide (r.testId = test))).map
        (fun r => hourIdx r.time)))).map
        (fun k => (rows.filter (fun r => decide (r.testId = test))).filter
          (fun r => decide (hourIdx r.time = k)))) 0).1 := by
  have hkeys : (rows.enum.filter (fun p => decide (p.2.testId = test))).map
      (fun p => hourIdx p.2.time) =
      (rows.filter (fun r => decide (r.testId = test))).map (fun r => hourIdx r.time) := by
    rw [show rows.enum = rows.enumFrom 0 from rfl]
    exact enumFrom_filter_map_proj (fun r => decide (r.testId = test))
      (fun r => hourIdx r.time) rows 0
  have hbuck : (fun k : ℤ => (hourBucket (rows.enum.filter
      (fun p => decide (p.2.testId = test))) k).map Prod.snd) =
      (fun k : ℤ => (rows.filter (fun r => decide (r.testId = test))).filter
        (fun r => decide (hourIdx r.time = k))) := by
    funext k
    show ((rows.enum.filter (fun p => decide (p.2.testId = test))).filter
      (fun p => decide (hourIdx p.2.time = k))).map Prod.snd = _
    rw [List.filter_filter, show rows.enum = rows.enumFrom 0 from rfl]
    rw [enumFrom_filter_snd
      (fun r => decide (hourIdx r.time = k) && decide (r.testId = test)) rows 0]
    rw [← List.filter_filter (fun r : OutRow => decide (r.testId = test)) rows]
  rw [hkeys, hbuck]

theorem testsFold_claim (hasCtr : Bool) (rows : List OutRow) (F : ℕ → List ℚ)
    (hstep : ∀ test : ℕ, ∃ ars,
      testAgg hasCtr true test
        (rows.enum.filter (fun p => decide (p.2.testId = test))) = .ok ars ∧
      ars.map (fun a => a.totalBeats) = F test) :
    ∀ (ts : List ℕ) (acc : List AggRow),
      ∃ out, List.foldlM (fun (acc : List AggRow) (test : ℕ) => do
          let a ← testAgg hasCtr true test
            (rows.enum.filter (fun p => decide (p.2.testId = test)))
          pure (acc ++ a)) acc ts = .ok out ∧
        out.map (fun a => a.totalBeats) =
          acc.map (fun a => a.totalBeats) ++ (ts.map F).flatten := by
  intro ts
  induction ts with
  | nil =>
    intro acc
    exact ⟨acc, rfl, (List.append_nil _).symm⟩
  | cons t ts2 ih =>
    intro acc
    obtain ⟨ars, hars, harsF⟩ := hstep t
    obtain ⟨out, hfold, hmap⟩ := ih (acc ++ ars)
    refine ⟨out, ?_, ?_⟩
    · rw [List.foldlM_cons]
      exact Eq.trans
        (exceptBind_ok _ _ _ (Eq.trans (exceptBind_ok _ _ _ hars) rfl)) hfold
    · rw [hmap, List.map_append, harsF, List.append_assoc]
      rfl

/-- **C1 (corrected).** When every (test, hour) bucket of the retained output
occupies a contiguous block of global row indices, the first output row
carries no device counter, counter-bearing rows carry no per-sample total,
some row carries a per-sample total, and device identity and version are
uniform, `calc_total_heartbeat_over_time` succeeds and its per-bucket
`total_beats` column equals the claim-side reconciliation `claimTotals`:
buckets in chronological order per test with a running baseline starting at
0; a bucket without counter sums its per-sample totals; a bucket whose last
counter row is second-to-last yields `counter - baseline`; otherwise
`counter - baseline` plus the per-sample totals strictly after the counter
row; the baseline then becomes that counter value. -/
theorem aggTotalsContiguous (rows : List OutRow) (v dt di : String)
    (hcont : ∀ (test : ℕ) (k : ℤ),
      ((rows.enum.filter (fun p => decide (p.2.testId = test))).filter
        (fun p => decide (hourIdx p.2.time = k))).Chain'
          (fun a b => b.1 = a.1 + 1))
    (hfirst : ∀ r, rows.get? 0 = some r → r.ctr = none)
    (hctb : ∀ r ∈ rows, r.ctr.isSome = true → r.totalBeats = none)
    (hTB : rows.any (fun r => r.totalBeats.isSome) = true)
    (huni : ∀ r ∈ rows, r.version = v ∧ r.deviceType = dt ∧ r.deviceId = di) :
    ∃ out, calc_total_heartbeat_over_time rows = .ok out ∧
      out.map (fun a => a.totalBeats) = claimTotals rows := by
  have hstep : ∀ test : ℕ, ∃ ars,
      testAgg (rows.any (fun r => r.ctr.isSome)) true test
        (rows.enum.filter (fun p => decide (p.2.testId = test))) = .ok ars ∧
      ars.map (fun a => a.totalBeats) =
        (claimBuckets ((sortOn (fun k : ℤ => (k : ℚ))
          (uniqueOrder ((rows.filter (fun r => decide (r.testId = test))).map
            (fun r => hourIdx r.time)))).map
          (fun k => (rows.filter (fun r => decide (r.testId = test))).filter
            (fun r => decide (hourIdx r.time = k)))) 0).1 := by
    intro test
    have hmemrows : ∀ p : ℕ × OutRow,
        p ∈ rows.enum.filter (fun p => decide (p.2.testId = test)) → p.2 ∈ rows := by
      intro p hp
      have hp2 : p ∈ rows.enum := List.mem_of_mem_filter hp
      have h3 := enumFrom_mem_get? rows 0 p hp2
      exact List.get?_mem h3.2
    have hctbT : ∀ p ∈ rows.enum.filter (fun p => decide (p.2.testId = test)),
        p.2.ctr.isSome = true → p.2.totalBeats = none :=
      fun p hp => hctb p.2 (hmemrows p hp)
    have huniT : ∀ p ∈ rows.enum.filter (fun p => decide (p.2.testId = test)),
        p.2.version = v ∧ p.2.deviceType = dt ∧ p.2.deviceId = di :=
      fun p hp => huni p.2 (hmemrows p hp)
    have hnoctrT : (rows.any (fun r => r.ctr.isSome)) = false →
        ∀ p ∈ rows.enum.filter (fun p => decide (p.2.testId = test)),
          p.2.ctr = none := by
      intro hf p hp
      exact Option.not_isSome_iff_eq_none.mp
        (List.any_eq_false.mp hf p.2 (hmemrows p hp))
    have hb : ∀ k : ℤ, ∃ n,
        hourBucket (rows.enum.filter (fun p => decide (p.2.testId = test))) k =
          ((hourBucket (rows.enum.filter
            (fun p => decide (p.2.testId = test))) k).map Prod.snd).enumFrom n ∧
        ∀ kk r, lastCtrPos ((hourBucket (rows.enum.filter
            (fun p => decide (p.2.testId = test))) k).map Prod.snd) = some (kk, r) →
          n + kk ≠ 0 := by
      intro k
      have hch : (hourBucket (rows.enum.filter
          (fun p => decide (p.2.testId = test))) k).Chain'
            (fun a b => b.1 = a.1 + 1) := hcont test k
      obtain ⟨n0, hbg⟩ : ∃ n0,
          hourBucket (rows.enum.filter (fun p => decide (p.2.testId = test))) k =
            ((hourBucket (rows.enum.filter
              (fun p => decide (p.2.testId = test))) k).map Prod.snd).enumFrom n0 :=
        ⟨_, chain_eq_enumFrom _ hch⟩
      refine ⟨n0, hbg, ?_⟩
      intro kk r hlcp heq
      obtain ⟨hget, hcs⟩ := lastCtrPos_get _ kk r hlcp
      have hidx : (hourBucket (rows.enum.filter
          (fun p => decide (p.2.testId = test))) k).get? kk = some (n0 + kk, r) := by
        rw [hbg, enumFrom_get? _ n0 kk, hget]
        rfl
      have hmemb := List.get?_mem hidx
      have hmem2 : (n0 + kk, r) ∈ rows.enum :=
        List.mem_of_mem_filter (List.mem_of_mem_filter hmemb)
      have h4 := enumFrom_mem_get? rows 0 _ hmem2
      have h5 : rows.get? 0 = some r := by
        have h6 := h4.2
        rw [Nat.sub_zero] at h6
        rw [show (0 : ℕ) = n0 + kk from heq.symm]
        exact h6
      have h7 := hfirst r h5
      rw [h7] at hcs
      simp at hcs
    obtain ⟨ars, h1, h2⟩ := testAgg_claim (rows.any (fun r => r.ctr.isSome)) test
      (rows.enum.filter (fun p => decide (p.2.testId = test))) v dt di
      hb hctbT huniT hnoctrT
    refine ⟨ars, h1, ?_⟩
    rw [h2]
    exact perTest_convert rows test
  obtain ⟨out, hfold, hmap⟩ :=
    testsFold_claim (rows.any (fun r => r.ctr.isSome)) rows _ hstep
      (uniqueOrder (rows.map (fun r => r.testId))) []
  refine ⟨out, ?_, ?_⟩
  · unfold calc_total_heartbeat_over_time
    rw [hTB]
    exact Eq.trans (exceptBind_ok _ _ _ hfold) rfl
  · rw [hmap]
    rfl

theorem filter_filter_singleton_chain (x : ℕ × OutRow) (p q : ℕ × OutRow → Bool) :
    ((([x]).filter p).filter q).Chain' (fun a b => b.1 = a.1 + 1) := by
  cases hp : p x with
  | false =>
    rw [show ([x]).filter p = [] from by
      rw [List.filter_cons_of_neg (by simp [hp])]
      rfl]
    exact List.chain'_nil
  | true =>
    rw [show ([x]).filter p = [x] from by
      rw [List.filter_cons_of_pos hp]
      rfl]
    cases hq : q x with
    | false =>
      rw [show ([x]).filter q = [] from by
        rw [List.filter_cons_of_neg (by simp [hq])]
        rfl]
      exact List.chain'_nil
    | true =>
      rw [show ([x]).filter q = [x] from by
        rw [List.filter_cons_of_pos hq]
        rfl]
      exact List.chain'_singleton x

/-- Witness for `aggTotalsContiguous`: the hypotheses hold of the concrete
one-row output `rowsAggW` and the aggregate totals equal `claimTotals`. -/
theorem aggTotalsContiguous_witness :
    ∃ out, calc_total_heartbeat_over_time rowsAggW = .ok out ∧
      out.map (fun a => a.totalBeats) = claimTotals rowsAggW :=
  aggTotalsContiguous rowsAggW "v1" "hset" "001"
    (fun test k => filter_filter_singleton_chain (0, rowAggW)
      (fun p => decide (p.2.testId = test)) (fun p => decide (hourIdx p.2.time = k)))
    (by intro r h; injection h with h2; rw [← h2]; rfl)
    (by decide) (by decide) (by decide)
